import Mathlib

/-!
Verification of `backend/open_webui/utils/pdf_generator.py`.

The module under verification is glue over three external libraries:
`html.escape`, `textwrap.wrap` + `arabic_reshaper.reshape` + `bidi.algorithm.get_display`,
and an HTML-to-PDF engine.  The HTML-assembly pipeline (RTL detection, RTL
normalisation, message rendering, document assembly, timestamp formatting and
the font-directory resolution) is embedded below.  External library functions
are modelled faithfully to their documented behaviour for the character
repertoire and value shapes this module feeds them; each model's doc comment
states its scope.  The PDF engine itself (fpdf) is out of scope.
-/

namespace PdfGen

/-! ## RTL detector (`contains_rtl`, lines 22-28) -/

/-- One character of the character class of `rtl_re`
(`[؀-ۿ֐-׿ݐ-ݿﭐ-﷿ﹰ-﻿܀-ݏހ-޿]`). -/
def isRtlRegexChar (c : Char) : Bool :=
  (0x0600 ≤ c.toNat && c.toNat ≤ 0x06FF) ||
  (0x0590 ≤ c.toNat && c.toNat ≤ 0x05FF) ||
  (0x0750 ≤ c.toNat && c.toNat ≤ 0x077F) ||
  (0xFB50 ≤ c.toNat && c.toNat ≤ 0xFDFF) ||
  (0xFE70 ≤ c.toNat && c.toNat ≤ 0xFEFF) ||
  (0x0700 ≤ c.toNat && c.toNat ≤ 0x074F) ||
  (0x0780 ≤ c.toNat && c.toNat ≤ 0x07BF)

/-- `contains_rtl` (line 26-28): true iff some character matches `rtl_re`. -/
def contains_rtl (text : String) : Bool :=
  text.data.any isRtlRegexChar

/-- The reshaping gate of `fix_rtl` (line 38): `re.search(r'[؀-ۿ]', line)`. -/
def isArabicBasic (c : Char) : Bool :=
  0x0600 ≤ c.toNat && c.toNat ≤ 0x06FF

/-! ## `html.escape` model

Models CPython `html.escape(s, quote=True)`: `&` is replaced first, then
`<`, `>`, `"` and `'`; this sequential replacement is equivalent to the
character-wise expansion below because no replacement string contains a
character that a later pass rewrites after the initial `&` pass. -/

def escapeChar (c : Char) : List Char :=
  if c = '&' then "&amp;".data
  else if c = '<' then "&lt;".data
  else if c = '>' then "&gt;".data
  else if c = '"' then "&quot;".data
  else if c = '\'' then "&#x27;".data
  else [c]

/-- `html.escape` with default `quote=True`, as used on lines 72-80 and 112. -/
def pyEscape (s : String) : String :=
  String.mk ((s.data.map escapeChar).flatten)

/-! ## `str.title` model (line 91)

Models Python `str.title()` for ASCII letters: the first letter of every
run of letters is uppercased, the rest are lowercased; non-letters pass
through and restart a run. -/

def pyTitleAux : Bool → List Char → List Char
  | _, [] => []
  | prevAlpha, c :: rest =>
    let alpha := c.isAlpha
    let c' := if alpha && !prevAlpha then c.toUpper else if alpha then c.toLower else c
    c' :: pyTitleAux alpha rest

def pyTitle (s : String) : String :=
  String.mk (pyTitleAux false s.data)

/-! ## `textwrap.wrap` model (line 35)

Models CPython `textwrap.wrap(text, width)` with its default options:
whitespace in ` \t\n\x0b\x0c\r` is replaced by single spaces, the text is
split into alternating word/space chunks, lines are filled greedily,
words longer than the width are broken, and whitespace is dropped at line
boundaries (leading whitespace only after the first line).  Not modelled:
tab expansion (tabs are treated as one space), hyphen-aware word splitting
(`break_on_hyphens`), and Unicode-only whitespace; the inputs whose wrap
this development evaluates contain none of these. -/

def isWrapSpace (c : Char) : Bool :=
  c = ' ' || c = '\t' || c = '\n' || c = '\x0b' || c = '\x0c' || c = '\r'

/-- `replace_whitespace` pass of textwrap. -/
def munge (s : String) : List Char :=
  s.data.map fun c => if isWrapSpace c then ' ' else c

/-- Split into maximal runs of spaces / non-spaces (the chunking pass). -/
def runsAux (flag : Bool) (acc : List Char) : List Char → List (List Char)
  | [] => [acc.reverse]
  | c :: cs =>
    if (c = ' ') = flag then runsAux flag (c :: acc) cs
    else acc.reverse :: runsAux (c = ' ') [c] cs

def chunkRuns : List Char → List (List Char)
  | [] => []
  | c :: cs => runsAux (c = ' ') [c] cs

/-- Is the chunk a whitespace chunk (Python `chunk.strip() == ''`)? -/
def isSpaceChunk (ck : List Char) : Bool := ck.all (· = ' ')

/-- The inner greedy loop of `_wrap_chunks`: take chunks while they fit. -/
def greedyTake (width curLen : Nat) : List (List Char) → List (List Char) × List (List Char)
  | [] => ([], [])
  | ck :: rest =>
    if curLen + ck.length ≤ width then
      let (t, r) := greedyTake width (curLen + ck.length) rest
      (ck :: t, r)
    else ([], ck :: rest)

def chunksLen (cks : List (List Char)) : Nat :=
  (cks.map List.length).sum

/-- One `_handle_long_word` step: break the head chunk at the space left on
the current line (`break_long_words=True`). -/
def handleLongWord (width curLen : Nat) (cur : List (List Char)) :
    List (List Char) → List (List Char) × List (List Char)
  | [] => (cur, [])
  | w :: ws =>
    if width < w.length then
      let spaceLeft := if width < 1 then 1 else width - curLen
      (cur ++ [w.take spaceLeft], w.drop spaceLeft :: ws)
    else (cur, w :: ws)

/-- Drop a trailing whitespace chunk from the line being built. -/
def dropTrailingWs (cur : List (List Char)) : List (List Char) :=
  if (cur.getLast?.map isSpaceChunk).getD false then cur.dropLast else cur

/-- One full line-building step of `_wrap_chunks` on a queue whose head is
not a dropped space chunk: the chunks of the produced line (after the
trailing-whitespace drop) and the remaining queue. -/
def wrapStep (width : Nat) (q : List (List Char)) : List (List Char) × List (List Char) :=
  (dropTrailingWs (handleLongWord width (chunksLen (greedyTake width 0 q).1)
      (greedyTake width 0 q).1 (greedyTake width 0 q).2).1,
   (handleLongWord width (chunksLen (greedyTake width 0 q).1)
      (greedyTake width 0 q).1 (greedyTake width 0 q).2).2)

/-- The outer loop of `_wrap_chunks`: drop a leading space chunk (only
once lines exist; maximal runs never put two space chunks side by side),
build one line, emit it unless empty, continue.  `fuel` strictly exceeds
any possible number of iterations (each iteration consumes at least one
character or one chunk of the queue). -/
def wrapLoop (width : Nat) : Nat → List (List Char) → List String → List String
  | 0, _, lines => lines
  | _ + 1, [], lines => lines
  | fuel + 1, ck :: rest, lines =>
    if !lines.isEmpty && isSpaceChunk ck then wrapLoop width fuel rest lines
    else
      wrapLoop width fuel (wrapStep width (ck :: rest)).2
        (if (wrapStep width (ck :: rest)).1.isEmpty then lines
         else lines ++ [String.mk (wrapStep width (ck :: rest)).1.flatten])

/-- `textwrap.wrap(text, width)` (default options, see module note above). -/
def pyWrap (width : Nat) (text : String) : List String :=
  let cs := munge text
  let q := chunkRuns cs
  wrapLoop width (cs.length + q.length + 1) q []

/-! ## `bidi.algorithm.get_display` model

Models python-bidi's `get_display(unicode_or_str)` — an implementation of
the Unicode Bidirectional Algorithm — for input lines that contain no
explicit directional formatting characters (LRE/RLE/LRO/RLO/PDF and the
isolate controls) and no boundary-neutral control characters: paragraph
level from the first strong character (LTR default), weak-type rules
W1-W7, neutral rules N1-N2, implicit-level rules I1-I2, the L2 reordering
rule and L4 mirroring.  The character-class table below reproduces the
Unicode `Bidi_Class` property on the ranges this module processes (ASCII,
Hebrew, Arabic, Syriac, Thaana, NKo, Samaritan, the Arabic presentation
forms).  Every remaining code point of the Unicode default right-to-left
zones (U+0590–U+08FF, U+FB1D–U+FDFF, U+FE70–U+FEFE, U+10800–U+10FFF,
U+1E800–U+1EFFF, U+1EC70–U+1EEFF — covering Arabic Extended-A/B, Mandaic,
the Syriac Supplement and the supplementary-plane right-to-left scripts)
is classified `R` or `AL` according to its zone: a conservative superset
of the real `R`/`AL`/`AN` assignments there (marks and signs inside those
zones are folded into the strong class, which only widens what the
theorems treat as right-to-left, never narrows it).  Code points outside
those zones default to class `L`.  Explicit formatting characters are
carried as class `X` and boundary neutrals as `BN`, both treated as
ordinary neutrals; no theorem below quantifies over strings containing
them. -/

/-- Bidirectional character classes (`X` stands in for the explicit
directional formatting classes, out of the model's scope). -/
inductive BC where
  | L | R | AL | EN | ES | ET | AN | CS | NSM | BN | B | S | WS | ON | X
  deriving DecidableEq, Repr

open BC in
/-- Unicode `Bidi_Class`, restricted as described in the module note. -/
def bidiClassOf (c : Char) : BC :=
  let n := c.toNat
  if n = 0x09 then S
  else if n = 0x0A || n = 0x0D || n = 0x1C || n = 0x1D || n = 0x1E || n = 0x85 then B
  else if n = 0x0B || n = 0x1F then S
  else if n = 0x0C || n = 0x20 then WS
  else if n < 0x09 || (0x0E ≤ n && n ≤ 0x1B) || n = 0x7F then BN
  else if (0x30 ≤ n && n ≤ 0x39) then EN
  else if n = 0x2B || n = 0x2D then ES
  else if n = 0x23 || n = 0x24 || n = 0x25 then ET
  else if n = 0x2C || n = 0x2E || n = 0x2F || n = 0x3A || n = 0xA0 then CS
  else if (0x41 ≤ n && n ≤ 0x5A) || (0x61 ≤ n && n ≤ 0x7A) then L
  else if n ≤ 0x7E then ON
  else if (0x0591 ≤ n && n ≤ 0x05BD) || n = 0x05BF || n = 0x05C1 || n = 0x05C2 ||
          n = 0x05C4 || n = 0x05C5 || n = 0x05C7 then NSM
  else if 0x0590 ≤ n && n ≤ 0x05FF then R
  else if (0x0600 ≤ n && n ≤ 0x0605) || (0x0660 ≤ n && n ≤ 0x0669) ||
          n = 0x066B || n = 0x066C then AN
  else if n = 0x0609 || n = 0x060A || n = 0x066A then ET
  else if n = 0x060C || n = 0x06DD then CS
  else if (0x0610 ≤ n && n ≤ 0x061A) || (0x064B ≤ n && n ≤ 0x065F) || n = 0x0670 ||
          (0x06D6 ≤ n && n ≤ 0x06DC) || (0x06DF ≤ n && n ≤ 0x06E4) ||
          n = 0x06E7 || n = 0x06E8 || (0x06EA ≤ n && n ≤ 0x06ED) then NSM
  else if 0x06F0 ≤ n && n ≤ 0x06F9 then EN
  else if 0x0606 ≤ n && n ≤ 0x06FF then AL
  else if n = 0x0711 || (0x0730 ≤ n && n ≤ 0x074A) then NSM
  else if 0x0700 ≤ n && n ≤ 0x077F then AL
  else if 0x07A6 ≤ n && n ≤ 0x07B0 then NSM
  else if 0x0780 ≤ n && n ≤ 0x07BF then AL
  else if (0x07EB ≤ n && n ≤ 0x07F3) || n = 0x07FD then NSM
  else if 0x07C0 ≤ n && n ≤ 0x07FF then R
  else if (0x0816 ≤ n && n ≤ 0x0819) || (0x081B ≤ n && n ≤ 0x0823) ||
          (0x0825 ≤ n && n ≤ 0x0827) || (0x0829 ≤ n && n ≤ 0x082D) then NSM
  else if 0x0800 ≤ n && n ≤ 0x083F then R
  else if n = 0x200F then R
  else if 0x200B ≤ n && n ≤ 0x200D then BN
  else if (0x202A ≤ n && n ≤ 0x202E) || (0x2066 ≤ n && n ≤ 0x2069) then X
  else if n = 0xFB1E then NSM
  else if 0xFB1D ≤ n && n ≤ 0xFB4F then R
  else if n = 0xFD3E || n = 0xFD3F then ON
  else if 0xFB50 ≤ n && n ≤ 0xFDFF then AL
  else if n = 0xFEFF then BN
  else if 0xFE70 ≤ n && n ≤ 0xFEFE then AL
  else if (0x0600 ≤ n && n ≤ 0x07BF) || (0x0860 ≤ n && n ≤ 0x08FF) ||
          (0x1EC70 ≤ n && n ≤ 0x1ECBF) || (0x1ED00 ≤ n && n ≤ 0x1ED4F) ||
          (0x1EE00 ≤ n && n ≤ 0x1EEFF) then AL
  else if (0x0590 ≤ n && n ≤ 0x05FF) || (0x07C0 ≤ n && n ≤ 0x085F) ||
          (0x10800 ≤ n && n ≤ 0x10FFF) || (0x1E800 ≤ n && n ≤ 0x1EFFF) then R
  else L

/-- One character in the bidi storage: code point, current type, level. -/
structure BChar where
  ch : Char
  ty : BC
  lv : Nat
  deriving DecidableEq, Repr

/-- P2/P3: paragraph embedding level from the first strong character
(0 when there is none — python-bidi's LTR default). -/
def baseLevel : List Char → Nat
  | [] => 0
  | c :: cs =>
    match bidiClassOf c with
    | .L => 0
    | .R => 1
    | .AL => 1
    | _ => baseLevel cs

/-- W1: non-spacing marks take the type of the previous character
(`sor` for a leading mark). -/
def bidiW1 (prev : BC) : List BChar → List BChar
  | [] => []
  | c :: rest =>
    if c.ty = .NSM then { c with ty := prev } :: bidiW1 prev rest
    else c :: bidiW1 c.ty rest

/-- W2: European numbers met after an Arabic-letter strong type become
Arabic numbers. -/
def bidiW2 (lastStrong : BC) : List BChar → List BChar
  | [] => []
  | c :: rest =>
    let c' := if c.ty = .EN && lastStrong = .AL then { c with ty := .AN } else c
    let ls := if c.ty = .R || c.ty = .L || c.ty = .AL then c.ty else lastStrong
    c' :: bidiW2 ls rest

/-- W3: Arabic letters become R. -/
def bidiW3 (l : List BChar) : List BChar :=
  l.map fun c => if c.ty = .AL then { c with ty := .R } else c

/-- W4: a single ES between two EN becomes EN; a single CS between two
numbers of the same type takes that type. -/
def bidiW4 (prev : BC) : List BChar → List BChar
  | [] => []
  | [c] => [c]
  | c :: n :: rest =>
    let t :=
      if c.ty = .ES && prev = .EN && n.ty = .EN then .EN
      else if c.ty = .CS && ((prev = .EN && n.ty = .EN) || (prev = .AN && n.ty = .AN)) then prev
      else c.ty
    { c with ty := t } :: bidiW4 t (n :: rest)

/-- W5 (first half): European terminators directly following EN become EN. -/
def bidiW5After (prev : BC) : List BChar → List BChar
  | [] => []
  | c :: rest =>
    let t := if c.ty = .ET && prev = .EN then .EN else c.ty
    { c with ty := t } :: bidiW5After t rest

/-- W5 (second half): European terminators directly preceding EN become EN
(implemented as the mirror-image scan on the reversed list). -/
def bidiW5 (l : List BChar) : List BChar :=
  (bidiW5After .ON (bidiW5After .ON l).reverse).reverse

/-- W6: remaining separators and terminators become ON. -/
def bidiW6 (l : List BChar) : List BChar :=
  l.map fun c =>
    if c.ty = .ES || c.ty = .ET || c.ty = .CS then { c with ty := .ON } else c

/-- W7: European numbers whose last preceding strong type is L become L. -/
def bidiW7 (prevStrong : BC) : List BChar → List BChar
  | [] => []
  | c :: rest =>
    let c' := if c.ty = .EN && prevStrong = .L then { c with ty := .L } else c
    let ps := if c'.ty = .L || c'.ty = .R then c'.ty else prevStrong
    c' :: bidiW7 ps rest

/-- All weak-type rules, in order, with `sor` at both run boundaries. -/
def bidiWeak (sor : BC) (l : List BChar) : List BChar :=
  bidiW7 sor (bidiW6 (bidiW5 (bidiW4 sor (bidiW3 (bidiW2 sor (bidiW1 sor l))))))

/-- Is the type neutral for the N rules (the explicit/boundary classes of
the model are carried along as neutrals)? -/
def isNeutralTy (t : BC) : Bool :=
  t = .B || t = .S || t = .WS || t = .ON || t = .BN || t = .X

/-- Direction contributed to the N rules: numbers act as R (N1). -/
def strongDirOf : BC → Option Bool
  | .L => some false
  | .R => some true
  | .AL => some true
  | .EN => some true
  | .AN => some true
  | _ => none

/-- First strong direction at or after the head (`eor` direction when
none remains). -/
def nextStrongDir (eor : Bool) : List BChar → Bool
  | [] => eor
  | c :: rest =>
    match strongDirOf c.ty with
    | some d => d
    | none => nextStrongDir eor rest

/-- N1/N2: a neutral takes the surrounding direction when both sides agree,
otherwise the embedding direction. -/
def bidiNeutral (embR : Bool) (prevDir eorDir : Bool) : List BChar → List BChar
  | [] => []
  | c :: rest =>
    if isNeutralTy c.ty then
      let nd := nextStrongDir eorDir rest
      let d := if prevDir = nd then prevDir else embR
      { c with ty := if d then .R else .L } :: bidiNeutral embR prevDir eorDir rest
    else
      let pd := match strongDirOf c.ty with
        | some d => d
        | none => prevDir
      c :: bidiNeutral embR pd eorDir rest

/-- I1/I2: implicit levels from the resolved types. -/
def bidiImplicit (l : List BChar) : List BChar :=
  l.map fun c =>
    if c.lv % 2 = 0 then
      if c.ty = .R then { c with lv := c.lv + 1 }
      else if c.ty = .EN || c.ty = .AN then { c with lv := c.lv + 2 }
      else c
    else
      if c.ty = .L || c.ty = .EN || c.ty = .AN then { c with lv := c.lv + 1 }
      else c

/-- One L2 pass: reverse every maximal run of characters at `lvl` or higher.
`run` carries the high-level run seen so far, already in reversed order. -/
def reverseRunsAux (lvl : Nat) (run : List BChar) : List BChar → List BChar
  | [] => run
  | c :: rest =>
    if lvl ≤ c.lv then reverseRunsAux lvl (c :: run) rest
    else run ++ c :: reverseRunsAux lvl [] rest

def reverseRuns (lvl : Nat) (l : List BChar) : List BChar :=
  reverseRunsAux lvl [] l

/-- L2, from the highest level down to level 1. -/
def applyL2 : Nat → List BChar → List BChar
  | 0, l => l
  | lvl + 1, l => applyL2 lvl (reverseRuns (lvl + 1) l)

/-- Bidi-mirrored counterpart of a character, for the paired characters in
the model's repertoire (other mirrored code points are out of scope). -/
def mirrorChar (c : Char) : Char :=
  if c = '(' then ')'
  else if c = ')' then '('
  else if c = '[' then ']'
  else if c = ']' then '['
  else if c = '<' then '>'
  else if c = '>' then '<'
  else if c.toNat = 0x7B then Char.ofNat 0x7D
  else if c.toNat = 0x7D then Char.ofNat 0x7B
  else if c = '«' then '»'
  else if c = '»' then '«'
  else c

/-- L4: characters at an odd (right-to-left) resolved level are mirrored. -/
def applyMirror (l : List BChar) : List BChar :=
  l.map fun c => if c.lv % 2 = 1 then { c with ch := mirrorChar c.ch } else c

def maxLevel (l : List BChar) : Nat :=
  l.foldr (fun c acc => max c.lv acc) 0

/-- Is the paragraph direction right-to-left? -/
def bidiEmbR (s : String) : Bool :=
  baseLevel s.data % 2 = 1

/-- Types and levels resolved (X, W, N and I rules), before reordering. -/
def bidiResolve (s : String) : List BChar :=
  bidiImplicit (bidiNeutral (bidiEmbR s) (bidiEmbR s) (bidiEmbR s)
    (bidiWeak (if bidiEmbR s then .R else .L)
      (s.data.map fun c => ⟨c, bidiClassOf c, baseLevel s.data⟩)))

/-- `get_display` (python-bidi), within the scope stated in the module note. -/
def get_display (s : String) : String :=
  String.mk ((applyMirror (applyL2 (maxLevel (bidiResolve s)) (bidiResolve s))).map (·.ch))

/-! ## `arabic_reshaper.reshape` model (line 39)

Models `arabic_reshaper.reshape` with its default configuration (harakat
deleted, Lam-Alef ligatures, no other ligatures) for a representative set
of basic-Arabic-block letters: each covered letter is replaced by its
isolated/final/initial/medial Arabic presentation form according to the
joining classes of its neighbours, a Lam followed by an Alef variant fuses
into the corresponding Lam-Alef ligature, and combining harakat are
removed.  Letters outside the table pass through unshaped (as
`arabic_reshaper` does for characters missing from its table); no theorem
below evaluates `reshape` on such letters. -/

/-- Joining behaviour of a covered Arabic letter. -/
inductive ArabJoin where
  | nonJoining
  | rightJoining
  | dualJoining
  deriving DecidableEq, Repr

/-- Table entry: joining class and the four presentation forms
(isolated, final, initial, medial). -/
structure ArabLetter where
  join : ArabJoin
  iso : Char
  fin : Char
  ini : Char
  med : Char
  deriving Repr

/-- Covered letters of the basic Arabic block. -/
def arabTable (c : Char) : Option ArabLetter :=
  match c.toNat with
  | 0x0621 => some ⟨.nonJoining, 'ﺀ', 'ﺀ', 'ﺀ', 'ﺀ'⟩ -- hamza
  | 0x0622 => some ⟨.rightJoining, 'ﺁ', 'ﺂ', 'ﺁ', 'ﺂ'⟩ -- alef madda
  | 0x0623 => some ⟨.rightJoining, 'ﺃ', 'ﺄ', 'ﺃ', 'ﺄ'⟩ -- alef hamza above
  | 0x0625 => some ⟨.rightJoining, 'ﺇ', 'ﺈ', 'ﺇ', 'ﺈ'⟩ -- alef hamza below
  | 0x0627 => some ⟨.rightJoining, 'ﺍ', 'ﺎ', 'ﺍ', 'ﺎ'⟩ -- alef
  | 0x0628 => some ⟨.dualJoining, 'ﺏ', 'ﺐ', 'ﺑ', 'ﺒ'⟩ -- beh
  | 0x062A => some ⟨.dualJoining, 'ﺕ', 'ﺖ', 'ﺗ', 'ﺘ'⟩ -- teh
  | 0x062C => some ⟨.dualJoining, 'ﺝ', 'ﺞ', 'ﺟ', 'ﺠ'⟩ -- jeem
  | 0x062D => some ⟨.dualJoining, 'ﺡ', 'ﺢ', 'ﺣ', 'ﺤ'⟩ -- hah
  | 0x062F => some ⟨.rightJoining, 'ﺩ', 'ﺪ', 'ﺩ', 'ﺪ'⟩ -- dal
  | 0x0631 => some ⟨.rightJoining, 'ﺭ', 'ﺮ', 'ﺭ', 'ﺮ'⟩ -- reh
  | 0x0633 => some ⟨.dualJoining, 'ﺱ', 'ﺲ', 'ﺳ', 'ﺴ'⟩ -- seen
  | 0x0639 => some ⟨.dualJoining, 'ﻉ', 'ﻊ', 'ﻋ', 'ﻌ'⟩ -- ain
  | 0x0644 => some ⟨.dualJoining, 'ﻝ', 'ﻞ', 'ﻟ', 'ﻠ'⟩ -- lam
  | 0x0645 => some ⟨.dualJoining, 'ﻡ', 'ﻢ', 'ﻣ', 'ﻤ'⟩ -- meem
  | 0x0646 => some ⟨.dualJoining, 'ﻥ', 'ﻦ', 'ﻧ', 'ﻨ'⟩ -- noon
  | 0x0647 => some ⟨.dualJoining, 'ﻩ', 'ﻪ', 'ﻫ', 'ﻬ'⟩ -- heh
  | 0x0648 => some ⟨.rightJoining, 'ﻭ', 'ﻮ', 'ﻭ', 'ﻮ'⟩ -- waw
  | 0x064A => some ⟨.dualJoining, 'ﻱ', 'ﻲ', 'ﻳ', 'ﻴ'⟩ -- yeh
  | _ => none

/-- Lam-Alef ligature forms (isolated, final) for the Alef variants. -/
def lamAlefForms (alef : Char) : Option (Char × Char) :=
  match alef.toNat with
  | 0x0622 => some ('ﻵ', 'ﻶ')
  | 0x0623 => some ('ﻷ', 'ﻸ')
  | 0x0625 => some ('ﻹ', 'ﻺ')
  | 0x0627 => some ('ﻻ', 'ﻼ')
  | _ => none

/-- Harakat and other combining marks that the default configuration
deletes (the common `delete_harakat` subset). -/
def isHaraka (c : Char) : Bool :=
  (0x064B ≤ c.toNat && c.toNat ≤ 0x065F) || c.toNat = 0x0670

/-- Does the letter accept a connection from the preceding character? -/
def acceptsPrev (e : ArabLetter) : Bool :=
  e.join ≠ .nonJoining

/-- The head of the list connects backwards (so the current letter, if
dual-joining, takes an initial/medial form). -/
def nextAccepting : List Char → Bool
  | [] => false
  | c :: _ =>
    match arabTable c with
    | some e => acceptsPrev e
    | none => false

/-- Pick the presentation form from the two connection flags. -/
def contextualGlyph (prevConn linkNext : Bool) (e : ArabLetter) : Char :=
  if prevConn && acceptsPrev e then
    if linkNext then e.med else e.fin
  else
    if linkNext then e.ini else e.iso

/-- The contextual-shaping scan.  `prevConn` is true when the previous
emitted glyph connects forward to the current one. -/
def reshapeAux (prevConn : Bool) : List Char → List Char
  | [] => []
  | c :: rest =>
    match arabTable c with
    | none => c :: reshapeAux false rest
    | some e =>
      match rest with
      | [] => [contextualGlyph prevConn false e]
      | a :: rest' =>
        match (if c.toNat = 0x0644 then lamAlefForms a else none) with
        | some p => (if prevConn then p.2 else p.1) :: reshapeAux false rest'
        | none =>
          contextualGlyph prevConn (e.join = .dualJoining && nextAccepting (a :: rest')) e ::
            reshapeAux (e.join = .dualJoining) (a :: rest')
  termination_by l => l.length

/-- `arabic_reshaper.reshape` within the scope stated above. -/
def reshape (s : String) : String :=
  String.mk (reshapeAux false (s.data.filter fun c => !isHaraka c))

/-! ## `fix_rtl` (lines 30-41) -/

/-- `"\n".join(...)`, character-wise. -/
def joinNl : List String → List Char
  | [] => []
  | [l] => l.data
  | l :: next :: rest => l.data ++ '\n' :: joinNl (next :: rest)

/-- Per-line processing of `fix_rtl` (lines 37-40): reshape when the line
contains basic-Arabic characters, then apply the bidi algorithm. -/
def processLine (line : String) : String :=
  if line.data.any isArabicBasic then get_display (reshape line)
  else get_display line

/-- `fix_rtl(text, width=75)`: wrap, process each line, and rejoin the
lines with newlines. -/
def fix_rtl (text : String) (width : Nat) : String :=
  String.mk (joinNl ((pyWrap width text).map processLine))

/-! ## Python values and exceptions

The renderer receives messages as dictionaries of arbitrary values.  The
model covers the value shapes the claims exercise: strings, integers and
`None`; the string fields of a message are `Option String` with `none`
standing for an absent key (or a `None` value, which `dict.get` returns
for absent keys as well). -/

/-- A Python value in the `timestamp` slot. -/
inductive PyVal where
  | vNone
  | vInt (n : Int)
  | vStr (s : String)
  deriving DecidableEq, Repr

/-- The exception classes this pipeline can raise. -/
inductive PyExn where
  | typeError
  | valueError
  | overflowError
  | osError
  | attributeError
  deriving DecidableEq, Repr

/-- Python truthiness of a `PyVal` (`if timestamp`, line 80). -/
def isTruthy : PyVal → Bool
  | .vNone => false
  | .vInt n => n != 0
  | .vStr s => s != ""

/-- `html.escape` applied to an optional value: `escape(None)` raises
`AttributeError` (`'NoneType' object has no attribute 'replace'`). -/
def pyEscapeOpt : Option String → Except PyExn String
  | some s => .ok (pyEscape s)
  | none => .error .attributeError

/-- One chat message (`Dict[str, Any]`): `role`, `content`, `model`,
`timestamp`.  `none` in a string field means the key is absent (or `None`). -/
structure Message where
  role : Option String
  content : Option String
  model : Option String
  timestamp : PyVal
  deriving DecidableEq, Repr

/-- `ChatTitleMessagesForm`: title plus ordered messages. -/
structure ChatTitleMessagesForm where
  title : String
  messages : List Message

/-! ## `datetime.fromtimestamp` / `strftime` model (lines 61-68)

Models CPython `datetime.fromtimestamp(v)` on 64-bit Linux for integer,
string and `None` inputs, with local time modelled as a fixed offset `tz`
(seconds east of UTC; the real conversion is environment-dependent):

* non-numbers raise `TypeError`;
* integers outside the `time_t` range (`±2^63`) raise `OverflowError`;
* timestamps whose local year does not fit the C `int` field `tm_year`
  (year − 1900 outside `[-2^31, 2^31)`) make `localtime` fail, raising
  `OSError`;
* local years outside `1..9999` raise `ValueError` from the `datetime`
  constructor;
* otherwise the local civil date-time is returned.

Float timestamps and DST-varying offsets are out of the model's scope. -/

/-- Day lengths of the twelve months. -/
def monthLengths (leap : Bool) : List Nat :=
  [31, if leap then 29 else 28, 31, 30, 31, 30, 31, 31, 30, 31, 30, 31]

/-- Locate the month of a zero-based day-of-year by scanning the month
table; returns the 1-based month and day.  (The fallback arm is
unreachable for day numbers below the table's sum.) -/
def findMonth : List Nat → Nat → Nat → Nat × Nat
  | [], _, _ => (12, 31)
  | len :: rest, m, rem =>
    if rem < len then (m, rem + 1)
    else findMonth rest (m + 1) (rem - len)

/-- Split a zero-based day index within one 400-year Gregorian cycle
(`0 ≤ r < 146097`) into (year within cycle `1..400`, month, day) —
the 100/4/1-year decomposition used by CPython's `_ord2ymd`. -/
def ymdOfCycle (r : Nat) : Nat × Nat × Nat :=
  let n100 := r / 36524
  let r2 := r % 36524
  let n4 := r2 / 1461
  let r3 := r2 % 1461
  let n1 := r3 / 365
  let r4 := r3 % 365
  if n1 = 4 || n100 = 4 then (n100 * 100 + n4 * 4 + n1, 12, 31)
  else
    (n100 * 100 + n4 * 4 + n1 + 1,
     (findMonth (monthLengths (n1 = 3 && (n4 != 24 || n100 = 3))) 1 r4).1,
     (findMonth (monthLengths (n1 = 3 && (n4 != 24 || n100 = 3))) 1 r4).2)

/-- Civil date of a day count relative to 0001-01-01 (day 0), for any
integer day count: Gregorian 400-year cycles plus `ymdOfCycle`.
Returns (year, month, day) with the year an unbounded integer. -/
def civilOfDays (ordDays : Int) : Int × Nat × Nat :=
  (400 * ordDays.fdiv 146097 + ((ymdOfCycle (ordDays.fmod 146097).toNat).1 : Int),
   (ymdOfCycle (ordDays.fmod 146097).toNat).2.1,
   (ymdOfCycle (ordDays.fmod 146097).toNat).2.2)

/-- The local civil date-time of an integer timestamp under offset `tz`,
or the exception `fromtimestamp` raises for it. -/
def fromtimestampInt (tz n : Int) : Except PyExn (Nat × Nat × Nat × Nat × Nat × Nat) :=
  if n < -(2 ^ 63) || 2 ^ 63 ≤ n then .error .overflowError
  else
    let secs := ((n + tz).fmod 86400).toNat
    let y := (civilOfDays ((n + tz).fdiv 86400 + 719162)).1
    if y - 1900 < -(2 ^ 31) || 2 ^ 31 ≤ y - 1900 then .error .osError
    else if y < 1 || 9999 < y then .error .valueError
    else .ok (y.toNat, (civilOfDays ((n + tz).fdiv 86400 + 719162)).2.1,
      (civilOfDays ((n + tz).fdiv 86400 + 719162)).2.2,
      secs / 3600, secs % 3600 / 60, secs % 60)

/-- `datetime.fromtimestamp(v)` within the scope stated above. -/
def fromtimestamp (tz : Int) : PyVal → Except PyExn (Nat × Nat × Nat × Nat × Nat × Nat)
  | .vNone => .error .typeError
  | .vStr _ => .error .typeError
  | .vInt n => fromtimestampInt tz n

/-- Decimal digits of a natural number, most significant first (the fuel
always suffices since a number needs fewer digits than its value plus
one). -/
def natDigitsAux : Nat → Nat → List Char
  | 0, _ => []
  | fuel + 1, n =>
    if n < 10 then [Char.ofNat (48 + n)]
    else natDigitsAux fuel (n / 10) ++ [Char.ofNat (48 + n % 10)]

def natDigits (n : Nat) : List Char :=
  natDigitsAux (n + 1) n

/-- Zero-pad to `k` characters (the `%Y`/`%m`/... fields of `strftime`). -/
def padDigits (k n : Nat) : List Char :=
  List.replicate (k - (natDigits n).length) '0' ++ natDigits n

/-- `strftime("%Y-%m-%d, %H:%M:%S")` (line 65). -/
def strftimeYmdHms (y mo d hh mi ss : Nat) : String :=
  String.mk (padDigits 4 y ++ '-' :: padDigits 2 mo ++ '-' :: padDigits 2 d ++
    ',' :: ' ' :: padDigits 2 hh ++ ':' :: padDigits 2 mi ++ ':' :: padDigits 2 ss)

/-- `PDFGenerator.format_timestamp` (lines 61-68): format the local
date-time, returning `""` on `ValueError` or `TypeError`; any other
exception propagates. -/
def format_timestamp (tz : Int) (timestamp : PyVal) : Except PyExn String :=
  match fromtimestamp tz timestamp with
  | .ok (y, mo, d, hh, mi, ss) => .ok (strftimeYmdHms y mo d hh mi ss)
  | .error e =>
    if e = .valueError || e = .typeError then .ok "" else .error e

/-! ## Message renderer (`_build_html_message`, lines 70-105) -/

/-- `content.replace("\n", "<br/>")` (line 86); a single-character pattern,
so the sequential replacement is the character-wise expansion. -/
def replaceNewlineBr (s : String) : String :=
  String.mk ((s.data.map fun c =>
    if c = '\n' then "<br/>".data else [c]).flatten)

/-- `escape(message.get("role", "user"))` (line 72). -/
def messageRole (msg : Message) : String :=
  pyEscape (msg.role.getD "user")

/-- The processed content (lines 73-75): escape, then `fix_rtl` when the
escaped content contains RTL-range characters. -/
def messageContentPre (msg : Message) : String :=
  let content := pyEscape (msg.content.getD "")
  if contains_rtl content then fix_rtl content 75 else content

/-- `escape(message.get("model") if role == "assistant" else "")` (line 78):
raises when the role is `"assistant"` and the model is absent. -/
def messageModel (msg : Message) : Except PyExn String :=
  if messageRole msg = "assistant" then pyEscapeOpt msg.model
  else .ok (pyEscape "")

/-- `escape(self.format_timestamp(timestamp) if timestamp else "")`
(line 80): the formatter only runs for truthy timestamps. -/
def messageDate (tz : Int) (msg : Message) : Except PyExn String :=
  if isTruthy msg.timestamp then
    match format_timestamp tz msg.timestamp with
    | .ok s => .ok (pyEscape s)
    | .error e => .error e
  else .ok (pyEscape "")

/-- The fragment f-string (lines 87-104), with the four interpolated
slots. -/
def htmlTemplate (roleTitle model dateStr content : String) : String :=
  "\n            <div>\n                <div>\n                    <h4>\n" ++
  "                        <strong>" ++ roleTitle ++ "</strong>\n" ++
  "                        <span style=\"font-size: 12px;\">" ++ model ++ "</span>\n" ++
  "                    </h4>\n                    <div> " ++ dateStr ++ " </div>\n" ++
  "                </div>\n                <br/>\n                <br/>\n\n" ++
  "                <div>\n                    " ++ content ++ "\n" ++
  "                </div>\n            </div>\n            <br/>\n          "

/-- `_build_html_message` : the HTML fragment of one message, or the
exception rendering it raises. -/
def build_html_message (tz : Int) (msg : Message) : Except PyExn String :=
  match messageModel msg with
  | .error e => .error e
  | .ok model =>
    match messageDate tz msg with
    | .error e => .error e
    | .ok dateStr =>
      .ok (htmlTemplate (pyTitle (messageRole msg)) model dateStr
        (replaceNewlineBr (messageContentPre msg)))

/-! ## Document assembler (lines 107-127, 177-184) -/

/-- The list comprehension of lines 178-180: fragments are built in input
order and the first exception aborts the whole generation. -/
def assembleMessages (tz : Int) : List Message → Except PyExn (List String)
  | [] => .ok []
  | msg :: rest =>
    match build_html_message tz msg with
    | .error e => .error e
    | .ok frag =>
      match assembleMessages tz rest with
      | .error e => .error e
      | .ok frags => .ok (frag :: frags)

/-- The escaped (and possibly RTL-normalised) title (lines 109-112). -/
def escapedTitle (title : String) : String :=
  pyEscape (if contains_rtl title then fix_rtl title 75 else title)

/-- The body f-string (lines 113-127) up to the `{self.messages_html}`
slot. -/
def bodyPre (t : String) : String :=
  "\n        <html>\n            <head>\n" ++
  "                <meta name=\"viewport\" content=\"width=device-width, initial-scale=1.0\" />\n" ++
  "            </head>\n            <body>\n            <div>\n" ++
  "                <div>\n                    <h2>" ++ t ++ "</h2>\n" ++
  "                    "

/-- The body f-string after the `{self.messages_html}` slot. -/
def bodySuf : String :=
  "\n                </div>\n            </div>\n            </body>\n        </html>\n        "

/-- `_generate_html_body` with `messages_html` already assembled
(lines 113-127). -/
def generateHtmlBody (title messagesHtml : String) : String :=
  bodyPre (escapedTitle title) ++ messagesHtml ++ bodySuf

/-- The HTML-assembly portion of `generate_chat_pdf` (lines 177-184): the
fragments in input order, wrapped in one container, under the title. -/
def generateChatHtml (tz : Int) (form : ChatTitleMessagesForm) : Except PyExn String :=
  match assembleMessages tz form.messages with
  | .error e => .error e
  | .ok frags =>
    .ok (generateHtmlBody form.title ("<div>" ++ String.join frags ++ "</div>"))

/-! ## Font-directory resolution (lines 133-145)

`generate_chat_pdf` starts with `global FONTS_DIR` and rebinds the
module-level `FONTS_DIR` when the configured directory does not exist: the
filesystem is modelled as the list of existing directories. -/

/-- The value the module-global `FONTS_DIR` holds after one generation
call (lines 140-145). -/
def resolveFontsDir (existingDirs : List String) (sitePackages fontsDir : String) : String :=
  let fd1 := if fontsDir ∈ existingDirs then fontsDir
             else sitePackages ++ "/static/fonts"
  if fd1 ∈ existingDirs then fd1 else "./backend/static/fonts"

/-! ## Properties used in the claim statements -/

/-- No literal `<` or `>` character occurs in the string. -/
def noAngle (s : String) : Bool :=
  s.data.all fun c => c != '<' && c != '>'

/-- The character-entity tails `html.escape` can place after a `&`. -/
def entityTails : List (List Char) :=
  ["amp;".data, "lt;".data, "gt;".data, "quot;".data, "#x27;".data]

/-- Does the string contain a `&` that does not start one of the entities
`html.escape` emits (a bare ampersand)? -/
def hasBareAmpAux : List Char → Bool
  | [] => false
  | c :: rest =>
    (c = '&' && !entityTails.any (·.isPrefixOf rest)) || hasBareAmpAux rest

def hasBareAmp (s : String) : Bool :=
  hasBareAmpAux s.data

/-- Shape check for `YYYY-MM-DD, HH:MM:SS`. -/
def isDateFormat (s : String) : Bool :=
  match s.data with
  | [y1, y2, y3, y4, s1, m1, m2, s2, d1, d2, s3, s4, h1, h2, s5, n1, n2, s6, c1, c2] =>
    [y1, y2, y3, y4, m1, m2, d1, d2, h1, h2, n1, n2, c1, c2].all Char.isDigit &&
    s1 = '-' && s2 = '-' && s3 = ',' && s4 = ' ' && s5 = ':' && s6 = ':'
  | _ => false

end PdfGen

namespace PdfGen

/-! # Lemmas -/

/-! ## `html.escape` never leaves an angle bracket -/

theorem escapeChar_noAngle {c x : Char} (hx : x ∈ escapeChar c) :
    x ≠ '<' ∧ x ≠ '>' := by
  unfold escapeChar at hx
  split_ifs at hx with h1 h2 h3 h4 h5
  all_goals first
    | (fin_cases hx <;> exact ⟨by decide, by decide⟩)
    | (rw [List.mem_singleton] at hx; subst hx; exact ⟨h2, h3⟩)

theorem pyEscape_noAngle (s : String) : noAngle (pyEscape s) = true := by
  unfold pyEscape noAngle
  simp only [String.data]
  rw [List.all_eq_true]
  intro x hx
  rw [List.mem_flatten] at hx
  obtain ⟨l, hl, hxl⟩ := hx
  rw [List.mem_map] at hl
  obtain ⟨c, _, rfl⟩ := hl
  have := escapeChar_noAngle hxl
  simp_all

/-! ## `str.title` preserves angle-freedom -/

theorem toUpper_ne_angle {c : Char} (h1 : c ≠ '<') (h2 : c ≠ '>') :
    c.toUpper ≠ '<' ∧ c.toUpper ≠ '>' := by
  have hdef : c.toUpper =
      if c.toNat ≥ 97 ∧ c.toNat ≤ 122 then Char.ofNat (c.toNat - 32) else c := rfl
  rw [hdef]
  by_cases h : c.toNat ≥ 97 ∧ c.toNat ≤ 122
  · rw [if_pos h]
    obtain ⟨ha, hb⟩ := h
    generalize c.toNat = n at ha hb ⊢
    interval_cases n <;> exact ⟨by decide, by decide⟩
  · rw [if_neg h]; exact ⟨h1, h2⟩

theorem toLower_ne_angle {c : Char} (h1 : c ≠ '<') (h2 : c ≠ '>') :
    c.toLower ≠ '<' ∧ c.toLower ≠ '>' := by
  have hdef : c.toLower =
      if c.toNat ≥ 65 ∧ c.toNat ≤ 90 then Char.ofNat (c.toNat + 32) else c := rfl
  rw [hdef]
  by_cases h : c.toNat ≥ 65 ∧ c.toNat ≤ 90
  · rw [if_pos h]
    obtain ⟨ha, hb⟩ := h
    generalize c.toNat = n at ha hb ⊢
    interval_cases n <;> exact ⟨by decide, by decide⟩
  · rw [if_neg h]; exact ⟨h1, h2⟩

theorem pyTitleAux_noAngle {l : List Char} {b : Bool}
    (h : ∀ c ∈ l, c ≠ '<' ∧ c ≠ '>') :
    ∀ x ∈ pyTitleAux b l, x ≠ '<' ∧ x ≠ '>' := by
  induction l generalizing b with
  | nil => simp [pyTitleAux]
  | cons c rest ih =>
    intro x hx
    obtain ⟨h1, h2⟩ := h c (by simp)
    simp only [pyTitleAux, List.mem_cons] at hx
    rcases hx with rfl | hx
    · split_ifs
      · exact toUpper_ne_angle h1 h2
      · exact toLower_ne_angle h1 h2
      · exact ⟨h1, h2⟩
    · exact ih (fun c hc => h c (by simp [hc])) x hx

theorem pyTitle_noAngle {s : String} (h : noAngle s = true) :
    noAngle (pyTitle s) = true := by
  unfold pyTitle noAngle at *
  rw [List.all_eq_true] at h ⊢
  intro x hx
  simp only [String.data] at hx
  have := pyTitleAux_noAngle (l := s.data) (b := false)
    (fun c hc => by have := h c hc; simp_all) x hx
  simp_all

/-! ## Mirroring preserves angle-freedom -/

theorem mirrorChar_ne_angle {c : Char} (h1 : c ≠ '<') (h2 : c ≠ '>') :
    mirrorChar c ≠ '<' ∧ mirrorChar c ≠ '>' := by
  unfold mirrorChar
  split_ifs
  all_goals first
    | exact ⟨by decide, by decide⟩
    | simp_all

/-! ## `pyWrap` only rearranges characters of the (munged) input

Every character of every produced line is a character of the input or a
space; consequently any character predicate satisfied by the input and by
the space survives wrapping. -/

theorem munge_chars {p : Char → Bool} {s : String}
    (hs : ∀ c ∈ s.data, p c = true) (hsp : p ' ' = true) :
    ∀ c ∈ munge s, p c = true := by
  intro c hc
  unfold munge at hc
  rw [List.mem_map] at hc
  obtain ⟨c0, hc0, rfl⟩ := hc
  split_ifs
  · exact hsp
  · exact hs c0 hc0

theorem runsAux_chars {p : Char → Bool} {l : List Char} :
    ∀ {flag : Bool} {acc : List Char},
    (∀ c ∈ acc, p c = true) → (∀ c ∈ l, p c = true) →
    ∀ ck ∈ runsAux flag acc l, ∀ c ∈ ck, p c = true := by
  induction l with
  | nil =>
    intro flag acc hacc _ ck hck c hc
    simp only [runsAux, List.mem_singleton] at hck
    subst hck
    exact hacc c (List.mem_reverse.mp hc)
  | cons a rest ih =>
    intro flag acc hacc hl ck hck c hc
    simp only [runsAux] at hck
    split_ifs at hck
    · exact ih (fun c hc => by
          rcases List.mem_cons.mp hc with rfl | hc
          · exact hl c (by simp)
          · exact hacc c hc)
        (fun c hc => hl c (by simp [hc])) ck hck c hc
    · rcases List.mem_cons.mp hck with rfl | hck
      · exact hacc c (List.mem_reverse.mp hc)
      · exact ih (fun c hc => by
            rw [List.mem_singleton] at hc
            subst hc
            exact hl c (by simp))
          (fun c hc => hl c (by simp [hc])) ck hck c hc

theorem chunkRuns_chars {p : Char → Bool} {l : List Char}
    (hl : ∀ c ∈ l, p c = true) :
    ∀ ck ∈ chunkRuns l, ∀ c ∈ ck, p c = true := by
  cases l with
  | nil => simp [chunkRuns]
  | cons hd tl =>
    refine runsAux_chars ?_ ?_
    · intro c hc
      rw [List.mem_singleton] at hc
      subst hc
      exact hl _ (by simp)
    · intro c hc
      exact hl c (by simp [hc])

theorem greedyTake_mem {width : Nat} {q : List (List Char)} :
    ∀ {n : Nat} {ck : List Char},
    ck ∈ (greedyTake width n q).1 ∨ ck ∈ (greedyTake width n q).2 → ck ∈ q := by
  induction q with
  | nil => simp [greedyTake]
  | cons a rest ih =>
    intro n ck h
    simp only [greedyTake] at h
    split_ifs at h
    · rcases h with h | h
      · rcases List.mem_cons.mp h with rfl | h
        · simp
        · exact List.mem_cons_of_mem _ (ih (Or.inl h))
      · exact List.mem_cons_of_mem _ (ih (Or.inr h))
    · simpa using h

theorem handleLongWord_chars {p : Char → Bool} {width n : Nat}
    {cur q : List (List Char)}
    (hcur : ∀ ck ∈ cur, ∀ c ∈ ck, p c = true)
    (hq : ∀ ck ∈ q, ∀ c ∈ ck, p c = true) :
    (∀ ck ∈ (handleLongWord width n cur q).1, ∀ c ∈ ck, p c = true) ∧
    (∀ ck ∈ (handleLongWord width n cur q).2, ∀ c ∈ ck, p c = true) := by
  cases q with
  | nil => exact ⟨hcur, by simp [handleLongWord]⟩
  | cons w ws =>
    by_cases hw : width < w.length
    · constructor
      · intro ck hck c hc
        simp only [handleLongWord, hw, if_true] at hck
        rcases List.mem_append.mp hck with h | h
        · exact hcur ck h c hc
        · rw [List.mem_singleton] at h
          subst h
          exact hq w (by simp) c (List.take_subset _ _ hc)
      · intro ck hck c hc
        simp only [handleLongWord, hw, if_true] at hck
        rcases List.mem_cons.mp hck with rfl | h
        · exact hq w (by simp) c (List.drop_subset _ _ hc)
        · exact hq ck (by simp [h]) c hc
    · constructor
      · intro ck hck c hc
        simp only [handleLongWord, hw, if_false] at hck
        exact hcur ck hck c hc
      · intro ck hck c hc
        simp only [handleLongWord, hw, if_false] at hck
        exact hq ck hck c hc

theorem dropTrailingWs_mem {cur : List (List Char)} {ck : List Char}
    (h : ck ∈ dropTrailingWs cur) : ck ∈ cur := by
  unfold dropTrailingWs at h
  split_ifs at h
  · exact List.dropLast_subset _ h
  · exact h

theorem wrapStep_chars {p : Char → Bool} {width : Nat} {q : List (List Char)}
    (hq : ∀ ck ∈ q, ∀ c ∈ ck, p c = true) :
    (∀ ck ∈ (wrapStep width q).1, ∀ c ∈ ck, p c = true) ∧
    (∀ ck ∈ (wrapStep width q).2, ∀ c ∈ ck, p c = true) := by
  have hg1 : ∀ x ∈ (greedyTake width 0 q).1, ∀ c ∈ x, p c = true :=
    fun x hx => hq x (greedyTake_mem (Or.inl hx))
  have hg2 : ∀ x ∈ (greedyTake width 0 q).2, ∀ c ∈ x, p c = true :=
    fun x hx => hq x (greedyTake_mem (Or.inr hx))
  have hlw := @handleLongWord_chars p width (chunksLen (greedyTake width 0 q).1) _ _ hg1 hg2
  exact ⟨fun ck hck => hlw.1 ck (dropTrailingWs_mem hck), hlw.2⟩

theorem wrapLoop_chars {p : Char → Bool} {width : Nat} :
    ∀ {fuel : Nat} {q : List (List Char)} {lines : List String},
    (∀ ck ∈ q, ∀ c ∈ ck, p c = true) →
    (∀ l ∈ lines, ∀ c ∈ l.data, p c = true) →
    ∀ l ∈ wrapLoop width fuel q lines, ∀ c ∈ l.data, p c = true := by
  intro fuel
  induction fuel with
  | zero => intro q lines _ hlines; simpa [wrapLoop] using hlines
  | succ fuel ih =>
    intro q lines hq hlines
    match q with
    | [] => simpa [wrapLoop] using hlines
    | ck :: rest =>
      rw [wrapLoop]
      split_ifs
      · exact ih (fun x hx => hq x (by simp [hx])) hlines
      · exact ih (wrapStep_chars hq).2 hlines
      · refine ih (wrapStep_chars hq).2 ?_
        intro l hl c hc
        rcases List.mem_append.mp hl with h | h
        · exact hlines l h c hc
        · rw [List.mem_singleton] at h
          subst h
          replace hc : c ∈ (wrapStep width (ck :: rest)).1.flatten := hc
          rw [List.mem_flatten] at hc
          obtain ⟨x, hx, hcx⟩ := hc
          exact (wrapStep_chars hq).1 x hx c hcx

theorem pyWrap_chars {p : Char → Bool} {width : Nat} {s : String}
    (hs : ∀ c ∈ s.data, p c = true) (hsp : p ' ' = true) :
    ∀ l ∈ pyWrap width s, ∀ c ∈ l.data, p c = true := by
  unfold pyWrap
  exact wrapLoop_chars
    (chunkRuns_chars (munge_chars hs hsp))
    (by simp)

/-! ## The bidi passes only touch the `ty` field

Each weak/neutral/implicit pass keeps the character (and, for the weak and
neutral passes, the level) of every position; the L2 reordering permutes
elements; mirroring maps characters through `mirrorChar`. -/

/-- The character-and-level view of a bidi storage element. -/
def chlv (x : BChar) : Char × Nat := (x.ch, x.lv)

theorem bidiW1_map_chlv {l : List BChar} :
    ∀ {prev : BC}, (bidiW1 prev l).map chlv = l.map chlv := by
  induction l with
  | nil => intro prev; rfl
  | cons c rest ih =>
    intro prev
    simp only [bidiW1]
    split_ifs <;> simp [chlv, ih]

theorem bidiW2_map_chlv {l : List BChar} :
    ∀ {ls : BC}, (bidiW2 ls l).map chlv = l.map chlv := by
  induction l with
  | nil => intro ls; rfl
  | cons c rest ih =>
    intro ls
    simp only [bidiW2]
    split_ifs <;> simp [chlv, ih]

theorem bidiW3_map_chlv {l : List BChar} :
    (bidiW3 l).map chlv = l.map chlv := by
  unfold bidiW3
  rw [List.map_map]
  refine List.map_congr_left ?_
  intro a _
  by_cases h : a.ty = BC.AL <;> simp [chlv, h]

theorem bidiW4_map_chlv {l : List BChar} :
    ∀ {prev : BC}, (bidiW4 prev l).map chlv = l.map chlv := by
  induction l with
  | nil => intro prev; rfl
  | cons c rest ih =>
    intro prev
    cases rest with
    | nil => rfl
    | cons n rest' => simp [bidiW4, chlv, ih]

theorem bidiW5After_map_chlv {l : List BChar} :
    ∀ {prev : BC}, (bidiW5After prev l).map chlv = l.map chlv := by
  induction l with
  | nil => intro prev; rfl
  | cons c rest ih =>
    intro prev
    simp [bidiW5After, chlv, ih]

theorem bidiW5_map_chlv {l : List BChar} :
    (bidiW5 l).map chlv = l.map chlv := by
  unfold bidiW5
  rw [List.map_reverse, bidiW5After_map_chlv, List.map_reverse,
    bidiW5After_map_chlv, List.reverse_reverse]

theorem bidiW6_map_chlv {l : List BChar} :
    (bidiW6 l).map chlv = l.map chlv := by
  unfold bidiW6
  rw [List.map_map]
  refine List.map_congr_left ?_
  intro a _
  simp only [Function.comp_apply]
  split_ifs <;> simp [chlv]

theorem bidiW7_map_chlv {l : List BChar} :
    ∀ {ps : BC}, (bidiW7 ps l).map chlv = l.map chlv := by
  induction l with
  | nil => intro ps; rfl
  | cons c rest ih =>
    intro ps
    simp only [bidiW7]
    split_ifs <;> simp [chlv, ih]

theorem bidiWeak_map_chlv {l : List BChar} {sor : BC} :
    (bidiWeak sor l).map chlv = l.map chlv := by
  unfold bidiWeak
  rw [bidiW7_map_chlv, bidiW6_map_chlv, bidiW5_map_chlv, bidiW4_map_chlv,
    bidiW3_map_chlv, bidiW2_map_chlv, bidiW1_map_chlv]

theorem bidiNeutral_map_chlv {l : List BChar} :
    ∀ {embR prevDir eorDir : Bool},
    (bidiNeutral embR prevDir eorDir l).map chlv = l.map chlv := by
  induction l with
  | nil => intro embR prevDir eorDir; rfl
  | cons c rest ih =>
    intro embR prevDir eorDir
    simp only [bidiNeutral]
    split_ifs <;> simp [chlv, ih]

theorem bidiImplicit_map_ch {l : List BChar} :
    (bidiImplicit l).map (·.ch) = l.map (·.ch) := by
  unfold bidiImplicit
  rw [List.map_map]
  refine List.map_congr_left ?_
  intro a _
  simp only [Function.comp_apply]
  split_ifs <;> rfl

theorem reverseRunsAux_mem {lvl : Nat} {l : List BChar} :
    ∀ {run : List BChar} {x : BChar},
    x ∈ reverseRunsAux lvl run l → x ∈ run ∨ x ∈ l := by
  induction l with
  | nil => intro run x h; exact Or.inl h
  | cons c rest ih =>
    intro run x h
    simp only [reverseRunsAux] at h
    split_ifs at h
    · rcases ih h with h | h
      · rcases List.mem_cons.mp h with rfl | h
        · exact Or.inr (by simp)
        · exact Or.inl h
      · exact Or.inr (by simp [h])
    · rcases List.mem_append.mp h with h | h
      · exact Or.inl h
      · rcases List.mem_cons.mp h with rfl | h
        · exact Or.inr (by simp)
        · rcases ih h with h | h
          · simp at h
          · exact Or.inr (by simp [h])

theorem reverseRuns_mem {lvl : Nat} {l : List BChar} {x : BChar}
    (h : x ∈ reverseRuns lvl l) : x ∈ l := by
  rcases reverseRunsAux_mem h with h | h
  · simp at h
  · exact h

theorem applyL2_mem {x : BChar} :
    ∀ {lvl : Nat} {l : List BChar}, x ∈ applyL2 lvl l → x ∈ l := by
  intro lvl
  induction lvl with
  | zero => intro l h; exact h
  | succ lvl ih =>
    intro l h
    exact reverseRuns_mem (ih h)

/-- Projecting the `chlv` view back to the character. -/
theorem map_ch_eq_map_chlv (m : List BChar) :
    m.map (·.ch) = (m.map chlv).map Prod.fst := by
  rw [List.map_map]
  rfl

/-- The resolution passes leave the character sequence in place. -/
theorem bidiResolve_map_ch {s : String} :
    (bidiResolve s).map (·.ch) = s.data := by
  unfold bidiResolve
  rw [bidiImplicit_map_ch, map_ch_eq_map_chlv, bidiNeutral_map_chlv,
    bidiWeak_map_chlv, ← map_ch_eq_map_chlv, List.map_map]
  exact List.map_id _

/-- Every character of `get_display s` is a character of `s` or the mirror
image of one. -/
theorem get_display_chars {s : String} {x : Char} (hx : x ∈ (get_display s).data) :
    ∃ c ∈ s.data, x = c ∨ x = mirrorChar c := by
  replace hx :
      x ∈ (applyMirror (applyL2 (maxLevel (bidiResolve s)) (bidiResolve s))).map (·.ch) := hx
  rw [List.mem_map] at hx
  obtain ⟨y, hy, rfl⟩ := hx
  unfold applyMirror at hy
  rw [List.mem_map] at hy
  obtain ⟨z, hz, rfl⟩ := hy
  have hch : z.ch ∈ s.data := by
    have h1 : z.ch ∈ (bidiResolve s).map (·.ch) :=
      List.mem_map_of_mem _ (applyL2_mem hz)
    rwa [bidiResolve_map_ch] at h1
  refine ⟨z.ch, hch, ?_⟩
  split_ifs
  · exact Or.inr rfl
  · exact Or.inl rfl

/-! ## `get_display` is the identity on plain left-to-right text

On a string without right-to-left strong characters, Arabic numbers,
explicit directional controls or boundary neutrals, the weak rules turn
every European number into `L` (the last strong type is always `L`), the
neutral rules then resolve every neutral to `L`, all resolved levels stay
at the paragraph level 0, and the reordering and mirroring passes do
nothing. -/

theorem arabTable_glyphs {c : Char} {e : ArabLetter} (h : arabTable c = some e) :
    0xFE70 ≤ e.iso.toNat ∧ 0xFE70 ≤ e.fin.toNat ∧
    0xFE70 ≤ e.ini.toNat ∧ 0xFE70 ≤ e.med.toNat := by
  unfold arabTable at h
  split at h <;> first | (cases h; decide) | cases h

theorem lamAlefForms_glyphs {a : Char} {p : Char × Char} (h : lamAlefForms a = some p) :
    0xFE70 ≤ p.1.toNat ∧ 0xFE70 ≤ p.2.toNat := by
  unfold lamAlefForms at h
  split at h <;> first | (cases h; decide) | cases h

theorem contextualGlyph_cases (b1 b2 : Bool) (e : ArabLetter) :
    contextualGlyph b1 b2 e = e.iso ∨ contextualGlyph b1 b2 e = e.fin ∨
    contextualGlyph b1 b2 e = e.ini ∨ contextualGlyph b1 b2 e = e.med := by
  unfold contextualGlyph
  split_ifs <;> simp

theorem reshapeAux_chars :
    ∀ (n : Nat) (l : List Char), l.length ≤ n → ∀ {b : Bool} {x : Char},
    x ∈ reshapeAux b l → x ∈ l ∨ 0xFE70 ≤ x.toNat := by
  intro n
  induction n with
  | zero =>
    intro l hl b x hx
    rw [Nat.le_zero, List.length_eq_zero] at hl
    subst hl
    simp [reshapeAux] at hx
  | succ n ih =>
    intro l hl b x hx
    match l with
    | [] => simp [reshapeAux] at hx
    | c :: rest =>
      rw [reshapeAux] at hx
      rcases htb : arabTable c with _ | e <;> simp only [htb] at hx
      · rcases List.mem_cons.mp hx with rfl | hx
        · exact Or.inl (by simp)
        · rcases ih rest (by simpa using Nat.le_of_succ_le_succ hl) hx with h | h
          · exact Or.inl (by simp [h])
          · exact Or.inr h
      · match rest with
        | [] =>
          rw [List.mem_singleton] at hx
          subst hx
          rcases contextualGlyph_cases b false e with hg | hg | hg | hg <;>
            rw [hg] <;>
            exact Or.inr (by
              have := arabTable_glyphs htb
              tauto)
        | a :: rest' =>
          rcases hlig : (if c.toNat = 0x0644 then lamAlefForms a else none) with _ | p <;>
            simp only [hlig] at hx
          · rcases List.mem_cons.mp hx with rfl | hx
            · rcases contextualGlyph_cases b
                (e.join = .dualJoining && nextAccepting (a :: rest')) e with hg | hg | hg | hg <;>
                rw [hg] <;>
                exact Or.inr (by
                  have := arabTable_glyphs htb
                  tauto)
            · rcases ih (a :: rest') (by simpa using Nat.le_of_succ_le_succ hl) hx with h | h
              · exact Or.inl (by simp [h])
              · exact Or.inr h
          · have hpg : 0xFE70 ≤ p.1.toNat ∧ 0xFE70 ≤ p.2.toNat := by
              by_cases hc : c.toNat = 0x0644
              · rw [if_pos hc] at hlig
                exact lamAlefForms_glyphs hlig
              · rw [if_neg hc] at hlig
                cases hlig
            rcases List.mem_cons.mp hx with rfl | hx
            · split_ifs
              · exact Or.inr hpg.2
              · exact Or.inr hpg.1
            · have hr' : rest'.length ≤ n := by
                have := Nat.le_of_succ_le_succ hl
                simp at this
                omega
              rcases ih rest' hr' hx with h | h
              · exact Or.inl (by simp [h])
              · exact Or.inr h

theorem reshape_chars {s : String} {x : Char} (hx : x ∈ (reshape s).data) :
    x ∈ s.data ∨ 0xFE70 ≤ x.toNat := by
  unfold reshape at hx
  replace hx : x ∈ reshapeAux false (s.data.filter fun c => !isHaraka c) := hx
  rcases reshapeAux_chars (s.data.filter fun c => !isHaraka c).length _ le_rfl hx with h | h
  · exact Or.inl (List.mem_of_mem_filter h)
  · exact Or.inr h

/-! ## `fix_rtl` preserves angle-freedom and is a rewrap on plain text -/

theorem joinNl_chars {lines : List String} {x : Char} (hx : x ∈ joinNl lines) :
    x = '\n' ∨ ∃ l ∈ lines, x ∈ l.data := by
  induction lines with
  | nil => simp [joinNl] at hx
  | cons l rest ih =>
    cases rest with
    | nil =>
      right
      exact ⟨l, by simp, by simpa [joinNl] using hx⟩
    | cons next rest' =>
      rw [joinNl] at hx
      rcases List.mem_append.mp hx with h | h
      · exact Or.inr ⟨l, by simp, h⟩
      · rcases List.mem_cons.mp h with rfl | h
        · exact Or.inl rfl
        · rcases ih h with h | ⟨m, hm, hxm⟩
          · exact Or.inl h
          · exact Or.inr ⟨m, by simp [hm], hxm⟩

theorem processLine_noAngle {line : String} (h : noAngle line = true) :
    noAngle (processLine line) = true := by
  unfold processLine noAngle at *
  rw [List.all_eq_true] at h ⊢
  intro x hx
  have hline : ∀ c ∈ line.data, c ≠ '<' ∧ c ≠ '>' := by
    intro c hc
    have := h c hc
    constructor <;> (intro hh; simp [hh] at this)
  have hx' : ∃ c, (c ∈ line.data ∨ 0xFE70 ≤ c.toNat) ∧ (x = c ∨ x = mirrorChar c) := by
    split_ifs at hx
    · obtain ⟨c, hc, hxc⟩ := get_display_chars hx
      obtain hres | hres := reshape_chars hc
      · exact ⟨c, Or.inl hres, hxc⟩
      · exact ⟨c, Or.inr hres, hxc⟩
    · obtain ⟨c, hc, hxc⟩ := get_display_chars hx
      exact ⟨c, Or.inl hc, hxc⟩
  obtain ⟨c, hc, hxc⟩ := hx'
  have hcang : c ≠ '<' ∧ c ≠ '>' := by
    rcases hc with hc | hc
    · exact hline c hc
    · constructor <;> (intro hh; subst hh; simp at hc)
  have hxang : x ≠ '<' ∧ x ≠ '>' := by
    rcases hxc with rfl | rfl
    · exact hcang
    · exact mirrorChar_ne_angle hcang.1 hcang.2
  simp [hxang.1, hxang.2]

theorem fix_rtl_noAngle {s : String} {width : Nat} (h : noAngle s = true) :
    noAngle (fix_rtl s width) = true := by
  unfold fix_rtl noAngle at *
  rw [List.all_eq_true] at h ⊢
  intro x hx
  replace hx : x ∈ joinNl ((pyWrap width s).map processLine) := hx
  rcases joinNl_chars hx with rfl | ⟨l, hl, hxl⟩
  · decide
  · rw [List.mem_map] at hl
    obtain ⟨line, hline, rfl⟩ := hl
    have h1 : noAngle line = true := by
      unfold noAngle
      rw [List.all_eq_true]
      exact pyWrap_chars (p := fun c => c != '<' && c != '>')
        (fun c hc => h c hc) (by decide) line hline
    have := processLine_noAngle h1
    unfold noAngle at this
    rw [List.all_eq_true] at this
    exact this x hxl

theorem natDigitsAux_isDigit : ∀ (fuel n : Nat), ∀ c ∈ natDigitsAux fuel n,
    c.isDigit = true := by
  intro fuel
  induction fuel with
  | zero => intro n c hc; simp [natDigitsAux] at hc
  | succ fuel ih =>
    intro n c hc
    rw [natDigitsAux] at hc
    split_ifs at hc with h
    · rw [List.mem_singleton] at hc
      subst hc
      interval_cases n <;> decide
    · rcases List.mem_append.mp hc with hc | hc
      · exact ih (n / 10) c hc
      · rw [List.mem_singleton] at hc
        subst hc
        have hm : n % 10 < 10 := Nat.mod_lt _ (by omega)
        generalize n % 10 = m at hm ⊢
        interval_cases m <;> decide

theorem natDigits_isDigit (n : Nat) : ∀ c ∈ natDigits n, c.isDigit = true :=
  natDigitsAux_isDigit (n + 1) n

theorem natDigitsAux_len_le : ∀ (fuel n k : Nat), n < 10 ^ k → 1 ≤ k →
    (natDigitsAux fuel n).length ≤ k := by
  intro fuel
  induction fuel with
  | zero => intro n k _ _; simp [natDigitsAux]
  | succ fuel ih =>
    intro n k hn hk
    rw [natDigitsAux]
    split_ifs with h
    · simpa using hk
    · have hk2 : 2 ≤ k := by
        rcases Nat.lt_or_ge k 2 with hlt | hge
        · have hk1 : k = 1 := by omega
          subst hk1
          simp at hn
          omega
        · exact hge
      have hdiv : n / 10 < 10 ^ (k - 1) := by
        have h10 : 10 ^ k = 10 ^ (k - 1) * 10 := by
          conv_lhs => rw [show k = k - 1 + 1 by omega]
          rw [pow_succ]
        rw [Nat.div_lt_iff_lt_mul (by omega)]
        omega
      have := ih (n / 10) (k - 1) hdiv (by omega)
      simp only [List.length_append, List.length_singleton]
      omega

theorem natDigits_len_le (n k : Nat) (hn : n < 10 ^ k) (hk : 1 ≤ k) :
    (natDigits n).length ≤ k :=
  natDigitsAux_len_le (n + 1) n k hn hk

theorem padDigits_length {k n : Nat} (hn : n < 10 ^ k) (hk : 1 ≤ k) :
    (padDigits k n).length = k := by
  unfold padDigits
  have h1 := natDigits_len_le n k hn hk
  simp only [List.length_append, List.length_replicate]
  omega

theorem padDigits_isDigit {k n : Nat} : ∀ c ∈ padDigits k n, c.isDigit = true := by
  intro c hc
  unfold padDigits at hc
  rcases List.mem_append.mp hc with h | h
  · rw [List.eq_of_mem_replicate h]
    decide
  · exact natDigits_isDigit n c h

theorem exists_len2 {l : List Char} (h : l.length = 2) :
    ∃ a b, l = [a, b] := by
  match l, h with
  | [a, b], _ => exact ⟨a, b, rfl⟩

theorem exists_len4 {l : List Char} (h : l.length = 4) :
    ∃ a b c d, l = [a, b, c, d] := by
  match l, h with
  | [a, b, c, d], _ => exact ⟨a, b, c, d, rfl⟩

theorem isDateFormat_strftime {y mo d hh mi ss : Nat}
    (hy : y < 10000) (hmo : mo < 100) (hd : d < 100)
    (hhh : hh < 100) (hmi : mi < 100) (hss : ss < 100) :
    isDateFormat (strftimeYmdHms y mo d hh mi ss) = true := by
  obtain ⟨y1, y2, y3, y4, hy4⟩ := exists_len4 (padDigits_length (k := 4) (by simpa using hy) (by omega))
  obtain ⟨m1, m2, hm2⟩ := exists_len2 (padDigits_length (k := 2) (by simpa using hmo) (by omega))
  obtain ⟨d1, d2, hd2⟩ := exists_len2 (padDigits_length (k := 2) (by simpa using hd) (by omega))
  obtain ⟨h1, h2, hh2⟩ := exists_len2 (padDigits_length (k := 2) (by simpa using hhh) (by omega))
  obtain ⟨i1, i2, hi2⟩ := exists_len2 (padDigits_length (k := 2) (by simpa using hmi) (by omega))
  obtain ⟨s1, s2, hs2⟩ := exists_len2 (padDigits_length (k := 2) (by simpa using hss) (by omega))
  have hdig : ∀ {k n : Nat} {c : Char}, c ∈ padDigits k n → c.isDigit = true :=
    fun h => padDigits_isDigit _ h
  have e1 : y1.isDigit = true := hdig (by rw [hy4]; simp)
  have e2 : y2.isDigit = true := hdig (by rw [hy4]; simp)
  have e3 : y3.isDigit = true := hdig (by rw [hy4]; simp)
  have e4 : y4.isDigit = true := hdig (by rw [hy4]; simp)
  have e5 : m1.isDigit = true := hdig (by rw [hm2]; simp)
  have e6 : m2.isDigit = true := hdig (by rw [hm2]; simp)
  have e7 : d1.isDigit = true := hdig (by rw [hd2]; simp)
  have e8 : d2.isDigit = true := hdig (by rw [hd2]; simp)
  have e9 : h1.isDigit = true := hdig (by rw [hh2]; simp)
  have e10 : h2.isDigit = true := hdig (by rw [hh2]; simp)
  have e11 : i1.isDigit = true := hdig (by rw [hi2]; simp)
  have e12 : i2.isDigit = true := hdig (by rw [hi2]; simp)
  have e13 : s1.isDigit = true := hdig (by rw [hs2]; simp)
  have e14 : s2.isDigit = true := hdig (by rw [hs2]; simp)
  have hdata : (strftimeYmdHms y mo d hh mi ss).data =
      [y1, y2, y3, y4, '-', m1, m2, '-', d1, d2, ',', ' ', h1, h2, ':', i1, i2, ':', s1, s2] := by
    show padDigits 4 y ++ '-' :: padDigits 2 mo ++ '-' :: padDigits 2 d ++
      ',' :: ' ' :: padDigits 2 hh ++ ':' :: padDigits 2 mi ++ ':' :: padDigits 2 ss = _
    rw [hy4, hm2, hd2, hh2, hi2, hs2]
    rfl
  unfold isDateFormat
  rw [hdata]
  simp [e1, e2, e3, e4, e5, e6, e7, e8, e9, e10, e11, e12, e13, e14]

theorem findMonth_bounds :
    ∀ (tbl : List Nat) (m rem : Nat), 1 ≤ m → m + tbl.length ≤ 13 →
    (∀ x ∈ tbl, x ≤ 31) →
    (1 ≤ (findMonth tbl m rem).1 ∧ (findMonth tbl m rem).1 ≤ 12 ∧
     1 ≤ (findMonth tbl m rem).2 ∧ (findMonth tbl m rem).2 ≤ 31) := by
  intro tbl
  induction tbl with
  | nil => intro m rem _ _ _; simp [findMonth]
  | cons len rest ih =>
    intro m rem hm hlen htbl
    simp only [findMonth]
    split_ifs with hrem
    · refine ⟨hm, ?_, by omega, ?_⟩
      · simp only [List.length_cons] at hlen
        omega
      · have := htbl len (by simp)
        omega
    · refine ih (m + 1) (rem - len) (by omega) ?_ (fun x hx => htbl x (by simp [hx]))
      simp only [List.length_cons] at hlen
      omega

theorem ymdOfCycle_bounds (r : Nat) :
    1 ≤ (ymdOfCycle r).2.1 ∧ (ymdOfCycle r).2.1 ≤ 12 ∧
    1 ≤ (ymdOfCycle r).2.2 ∧ (ymdOfCycle r).2.2 ≤ 31 := by
  simp only [ymdOfCycle]
  split_ifs with h
  · norm_num
  · refine findMonth_bounds _ 1 _ (by omega) ?_ ?_
    · cases hb : (r % 36524 % 1461 / 365 = 3 && (r % 36524 / 1461 != 24 || r / 36524 = 3) : Bool) <;>
        simp [monthLengths]
    · intro x hx
      cases hb : (r % 36524 % 1461 / 365 = 3 && (r % 36524 / 1461 != 24 || r / 36524 = 3) : Bool) <;>
        (rw [hb] at hx; fin_cases hx <;> norm_num)

theorem fromtimestampInt_ok_bounds {tz n : Int}
    {y mo d hh mi ss : Nat}
    (h : fromtimestampInt tz n = .ok (y, mo, d, hh, mi, ss)) :
    1 ≤ y ∧ y ≤ 9999 ∧ 1 ≤ mo ∧ mo ≤ 12 ∧ 1 ≤ d ∧ d ≤ 31 ∧
    hh ≤ 23 ∧ mi ≤ 59 ∧ ss ≤ 59 := by
  simp only [fromtimestampInt] at h
  split_ifs at h with h1 h2 h3
  simp only [Except.ok.injEq, Prod.mk.injEq] at h
  obtain ⟨hy, hmo, hd, hhh, hmi, hss⟩ := h
  simp only [Bool.or_eq_true, decide_eq_true_eq, not_or, not_lt, not_le] at h2 h3
  have hsecs : ((n + tz).fmod 86400).toNat < 86400 := by
    rw [Int.toNat_lt (Int.fmod_nonneg' _ (by norm_num))]
    exact Int.fmod_lt_of_pos _ (by norm_num)
  constructor
  · omega
  constructor
  · omega
  have hcy := ymdOfCycle_bounds ((((n + tz).fdiv 86400 + 719162)).fmod 146097).toNat
  refine ⟨?_, ?_, ?_, ?_, ?_, ?_, ?_⟩
  · rw [← hmo]
    exact hcy.1
  · rw [← hmo]
    exact hcy.2.1
  · rw [← hd]
    exact hcy.2.2.1
  · rw [← hd]
    exact hcy.2.2.2
  · rw [← hhh]
    calc ((n + tz).fmod 86400).toNat / 3600 ≤ 86399 / 3600 :=
          Nat.div_le_div_right (by omega)
      _ = 23 := by norm_num
  · rw [← hmi]
    calc ((n + tz).fmod 86400).toNat % 3600 / 60 ≤ 3599 / 60 :=
          Nat.div_le_div_right (by
            have := Nat.mod_lt ((n + tz).fmod 86400).toNat (show 0 < 3600 by norm_num)
            omega)
      _ = 59 := by norm_num
  · rw [← hss]
    have := Nat.mod_lt ((n + tz).fmod 86400).toNat (show 0 < 60 by norm_num)
    omega

theorem fromtimestampInt_err {tz n : Int} {e : PyExn}
    (h : fromtimestampInt tz n = .error e) :
    e = .overflowError ∨ e = .osError ∨ e = .valueError := by
  simp only [fromtimestampInt] at h
  split_ifs at h <;> (simp only [Except.error.injEq] at h; subst h; simp)

/-- Successful formatting yields the empty string or a `YYYY-MM-DD, HH:MM:SS`
date string. -/
theorem format_timestamp_ok_shape {tz : Int} {v : PyVal} {s : String}
    (h : format_timestamp tz v = .ok s) :
    s = "" ∨ isDateFormat s = true := by
  cases v with
  | vNone =>
    simp only [format_timestamp, fromtimestamp] at h
    simp at h
    exact Or.inl h.symm
  | vStr str =>
    simp only [format_timestamp, fromtimestamp] at h
    simp at h
    exact Or.inl h.symm
  | vInt n =>
    simp only [format_timestamp, fromtimestamp] at h
    rcases hft : fromtimestampInt tz n with e | t <;> simp only [hft] at h
    · split_ifs at h
      simp at h
      exact Or.inl h.symm
    · obtain ⟨y, mo, d, hh, mi, ss⟩ := t
      simp only [Except.ok.injEq] at h
      subst h
      obtain ⟨b1, b2, b3, b4, b5, b6, b7, b8, b9⟩ := fromtimestampInt_ok_bounds hft
      exact Or.inr (isDateFormat_strftime (by omega) (by omega) (by omega)
        (by omega) (by omega) (by omega))

/-- The formatter only raises `OverflowError` (timestamps outside `time_t`)
or `OSError` (local year outside the C `int` range). -/
theorem format_timestamp_err {tz : Int} {v : PyVal} {e : PyExn}
    (h : format_timestamp tz v = .error e) :
    e = .overflowError ∨ e = .osError := by
  cases v with
  | vNone => simp [format_timestamp, fromtimestamp] at h
  | vStr str => simp [format_timestamp, fromtimestamp] at h
  | vInt n =>
    simp only [format_timestamp, fromtimestamp] at h
    rcases hft : fromtimestampInt tz n with e' | t <;> simp only [hft] at h
    · split_ifs at h with hcatch
      simp only [Except.error.injEq] at h
      subst h
      rcases fromtimestampInt_err hft with h | h | h
      · exact Or.inl h
      · exact Or.inr h
      · rw [h] at hcatch
        simp at hcatch
    · cases h

/-! ## Message renderer and assembler lemmas -/

theorem messageRole_user {msg : Message} (h : msg.role = some "user") :
    messageRole msg = "user" := by
  simp [messageRole, h]
  decide

theorem messageRole_assistant {msg : Message} (h : msg.role = some "assistant") :
    messageRole msg = "assistant" := by
  simp [messageRole, h]
  decide

theorem messageModel_user {msg : Message} (h : msg.role = some "user") :
    messageModel msg = .ok "" := by
  unfold messageModel
  rw [messageRole_user h, if_neg (by decide)]
  rfl

theorem messageModel_assistant {msg : Message} {m : String}
    (h : msg.role = some "assistant") (hm : msg.model = some m) :
    messageModel msg = .ok (pyEscape m) := by
  unfold messageModel
  rw [messageRole_assistant h, if_pos rfl, hm]
  rfl

theorem messageModel_missing {msg : Message}
    (h : msg.role = some "assistant") (hm : msg.model = none) :
    messageModel msg = .error .attributeError := by
  unfold messageModel
  rw [messageRole_assistant h, if_pos rfl, hm]
  rfl

theorem build_html_message_of_ok {tz : Int} {msg : Message} {m d : String}
    (hm : messageModel msg = .ok m) (hd : messageDate tz msg = .ok d) :
    build_html_message tz msg =
      .ok (htmlTemplate (pyTitle (messageRole msg)) m d
        (replaceNewlineBr (messageContentPre msg))) := by
  unfold build_html_message
  rw [hm, hd]

theorem build_html_message_err_model {tz : Int} {msg : Message} {e : PyExn}
    (hm : messageModel msg = .error e) :
    build_html_message tz msg = .error e := by
  unfold build_html_message
  rw [hm]

theorem messageDate_ok_escape {tz : Int} {msg : Message} {d : String}
    (h : messageDate tz msg = .ok d) : ∃ s, d = pyEscape s := by
  unfold messageDate at h
  split_ifs at h
  · rcases hf : format_timestamp tz msg.timestamp with e | s <;> rw [hf] at h
    · cases h
    · simp only [Except.ok.injEq] at h
      exact ⟨s, h.symm⟩
  · simp only [Except.ok.injEq] at h
    exact ⟨"", h.symm⟩

theorem assembleMessages_ok {tz : Int} :
    ∀ {msgs : List Message} {frags : List String},
    assembleMessages tz msgs = .ok frags →
    frags.length = msgs.length ∧
    ∀ i (hi : i < frags.length) (hm : i < msgs.length),
      Except.ok (frags.get ⟨i, hi⟩) = build_html_message tz (msgs.get ⟨i, hm⟩) := by
  intro msgs
  induction msgs with
  | nil =>
    intro frags h
    simp only [assembleMessages, Except.ok.injEq] at h
    subst h
    exact ⟨rfl, fun i hi hm => by simp at hi⟩
  | cons msg rest ih =>
    intro frags h
    simp only [assembleMessages] at h
    rcases hb : build_html_message tz msg with e | frag <;> rw [hb] at h
    · cases h
    · rcases hr : assembleMessages tz rest with e | frags' <;> rw [hr] at h
      · cases h
      · simp only [Except.ok.injEq] at h
        subst h
        obtain ⟨hlen, hget⟩ := ih hr
        refine ⟨by simp [hlen], ?_⟩
        intro i hi hm
        cases i with
        | zero => simpa using hb.symm
        | succ j =>
          simp only [List.length_cons] at hi hm
          simpa using hget j (by omega) (by omega)

theorem assembleMessages_err {tz : Int} :
    ∀ {msgs : List Message},
    (∃ m ∈ msgs, ∃ e, build_html_message tz m = .error e) →
    ∃ e, assembleMessages tz msgs = .error e := by
  intro msgs
  induction msgs with
  | nil => intro ⟨m, hm, _⟩; simp at hm
  | cons msg rest ih =>
    intro ⟨m, hm, e, he⟩
    simp only [assembleMessages]
    rcases hb : build_html_message tz msg with e' | frag
    · exact ⟨e', rfl⟩
    · rcases List.mem_cons.mp hm with rfl | hm
      · rw [hb] at he
        cases he
      · obtain ⟨e2, he2⟩ := ih ⟨m, hm, e, he⟩
        rw [he2]
        exact ⟨e2, rfl⟩

theorem generateChatHtml_of_ok {tz : Int} {form : ChatTitleMessagesForm}
    {frags : List String}
    (h : assembleMessages tz form.messages = .ok frags) :
    generateChatHtml tz form =
      .ok (bodyPre (escapedTitle form.title) ++
        ("<div>" ++ String.join frags ++ "</div>") ++ bodySuf) := by
  unfold generateChatHtml
  rw [h]
  rfl

/-! ## Angle-freedom of every user-derived fragment slot -/

theorem messageRoleTitle_noAngle (msg : Message) :
    noAngle (pyTitle (messageRole msg)) = true :=
  pyTitle_noAngle (pyEscape_noAngle _)

theorem messageContentPre_noAngle (msg : Message) :
    noAngle (messageContentPre msg) = true := by
  simp only [messageContentPre]
  split_ifs
  · exact fix_rtl_noAngle (pyEscape_noAngle _)
  · exact pyEscape_noAngle _

theorem messageModel_noAngle {msg : Message} {m : String}
    (h : messageModel msg = .ok m) : noAngle m = true := by
  unfold messageModel at h
  split_ifs at h
  · unfold pyEscapeOpt at h
    rcases hm : msg.model with _ | m0 <;> rw [hm] at h
    · cases h
    · simp only [Except.ok.injEq] at h
      subst h
      exact pyEscape_noAngle _
  · simp only [Except.ok.injEq] at h
    subst h
    exact pyEscape_noAngle _

theorem messageDate_noAngle {tz : Int} {msg : Message} {d : String}
    (h : messageDate tz msg = .ok d) : noAngle d = true := by
  obtain ⟨s, rfl⟩ := messageDate_ok_escape h
  exact pyEscape_noAngle _

/-! ## Script-block predicates used in the claim statements -/

def isHebrewBlock (c : Char) : Bool :=
  0x0590 ≤ c.toNat && c.toNat ≤ 0x05FF

def isSyriacBlock (c : Char) : Bool :=
  0x0700 ≤ c.toNat && c.toNat ≤ 0x074F

def isThaanaBlock (c : Char) : Bool :=
  0x0780 ≤ c.toNat && c.toNat ≤ 0x07BF

def isSamaritanBlock (c : Char) : Bool :=
  0x0800 ≤ c.toNat && c.toNat ≤ 0x083F

end PdfGen

namespace PdfGen

/-! # Claims -/

set_option maxRecDepth 8000

/-- C1, counterexample to the claim as stated: for the content `א&א`
(Hebrew letters around an ampersand), escaping produces `א&amp;א` — with no
bare ampersand — but the subsequent bidi reordering of `fix_rtl` scrambles
the `&amp;` entity into `;amp&`, so the processed content embedded into the
fragment contains a literal bare `&` originating from the user's `&`: the
escaping of the ampersand is undone by the reordering step. -/
theorem C1_escape_counterexample :
    pyEscape "א&א" = "א&amp;א" ∧
    hasBareAmp (pyEscape "א&א") = false ∧
    messageContentPre ⟨some "user", some "א&א", none, .vNone⟩ = "א;amp&א" ∧
    hasBareAmp (messageContentPre ⟨some "user", some "א&א", none, .vNone⟩) = true := by
  refine ⟨by decide, by decide, by decide, by decide⟩

/-- C1, amended: every user-supplied slot of the fragment (title-cased
role, model, date and the processed content) is HTML-escaped, and no
literal `<` or `>` from user content survives the reshaping/bidi pass —
the only `<`/`>` in the fragment are the module's own markup — so no tag
can be injected; the amendment is that a literal bare `&` from user
content can appear (the bidi pass can break `&amp;` apart), as the
counterexample shows. -/
theorem C1_no_angle_injection (tz : Int) (msg : Message) :
    noAngle (pyTitle (messageRole msg)) = true ∧
    noAngle (messageContentPre msg) = true ∧
    (∀ m, messageModel msg = .ok m → noAngle m = true) ∧
    (∀ d, messageDate tz msg = .ok d → noAngle d = true) :=
  ⟨messageRoleTitle_noAngle msg, messageContentPre_noAngle msg,
   fun _ hm => messageModel_noAngle hm,
   fun _ hd => messageDate_noAngle hd⟩

/-- C1, witness: the amended theorem applied to a concrete message whose
content, model and role all contain `<`, `>` and `&`. -/
theorem C1_no_angle_injection_witness :
    noAngle (messageContentPre ⟨some "assistant", some "<script>alert(1)</script>א", some "a<b>&c", .vNone⟩) = true ∧
    noAngle (pyEscape "a<b>&c") = true :=
  ⟨(C1_no_angle_injection 0 ⟨some "assistant", some "<script>alert(1)</script>א", some "a<b>&c", .vNone⟩).2.1,
   (C1_no_angle_injection 0 ⟨some "assistant", some "<script>alert(1)</script>א", some "a<b>&c", .vNone⟩).2.2.1
     (pyEscape "a<b>&c") rfl⟩

/-- C2: the code's own comment says `rtl_re` captures "various RTL scripts
including Arabic, Hebrew, Syriac, Thaana, and Samaritan", and the claim
asserts the detector returns true for Samaritan code points — but the
regex contains no Samaritan range (U+0800–U+083F): `contains_rtl` returns
false on the Samaritan letter U+0800 while returning true for Arabic,
Hebrew, Syriac and Thaana and false for Latin and CJK. -/
theorem C2_detector_misses_samaritan :
    isSamaritanBlock 'ࠀ' = true ∧
    contains_rtl "ࠀ" = false ∧
    contains_rtl "ب" = true ∧
    contains_rtl "א" = true ∧
    contains_rtl "ܐ" = true ∧
    contains_rtl "ދ" = true ∧
    contains_rtl "hello" = false ∧
    contains_rtl "漢字" = false := by
  refine ⟨by decide, by decide, by decide, by decide, by decide, by decide, by decide, by decide⟩

/-- C3, counterexample to the claim as stated: a timestamp outside the
platform `time_t` range makes `datetime.fromtimestamp` raise
`OverflowError`, which the `except (ValueError, TypeError)` handler of
`format_timestamp` does not catch — the formatter raises instead of
returning the empty string. -/
theorem C3_overflow_counterexample :
    format_timestamp 0 (.vInt (2 ^ 63)) = .error .overflowError ∧
    format_timestamp 0 (.vInt (2 ^ 62)) = .error .osError :=
  ⟨rfl, rfl⟩

/-- C3, amended: `format_timestamp` returns either a `YYYY-MM-DD,
HH:MM:SS` string or the empty string; absent (`None`) and non-numeric
inputs always yield the empty string without raising, and the only inputs
on which it raises are integer timestamps outside the `time_t` range
(`OverflowError`) or whose local year overflows the C `int` year field
(`OSError`) — those exceptions propagate uncaught. -/
theorem C3_formatter_total_or_overflow (tz : Int) (v : PyVal) :
    (∀ s, format_timestamp tz v = .ok s → s = "" ∨ isDateFormat s = true) ∧
    (∀ e, format_timestamp tz v = .error e → e = .overflowError ∨ e = .osError) ∧
    format_timestamp tz .vNone = .ok "" ∧
    (∀ str, format_timestamp tz (.vStr str) = .ok "") :=
  ⟨fun _ h => format_timestamp_ok_shape h,
   fun _ h => format_timestamp_err h,
   rfl,
   fun _ => rfl⟩

/-- C3, witness: the amended theorem applied at the epoch. -/
theorem C3_formatter_witness :
    ("1970-01-01, 00:00:00" : String) = "" ∨ isDateFormat "1970-01-01, 00:00:00" = true :=
  (C3_formatter_total_or_overflow 0 (.vInt 0)).1 "1970-01-01, 00:00:00" rfl

/-- C4, counterexample to the claim as stated: `format_timestamp(0)`
itself returns the epoch date string, but `_build_html_message` guards the
call with `if timestamp`, and the number 0 is falsy in Python — so a
message with timestamp 0 is rendered with an empty timestamp slot, not
with the epoch date. -/
theorem C4_epoch_counterexample :
    build_html_message 0 ⟨some "user", some "hi", none, .vInt 0⟩ =
      .ok (htmlTemplate "User" "" "" "hi") ∧
    format_timestamp 0 (.vInt 0) = .ok "1970-01-01, 00:00:00" ∧
    htmlTemplate "User" "" "" "hi" ≠
      htmlTemplate "User" "" "1970-01-01, 00:00:00" "hi" := by
  refine ⟨rfl, rfl, by decide⟩

/-- C4, amended: a message with timestamp 0 renders exactly like a message
with an absent timestamp (the renderer treats falsy timestamps as absent);
absent and non-numeric timestamps render an empty date slot without any
exception; the formatter itself does map 0 to the epoch date string. -/
theorem C4_zero_timestamp_as_absent (tz : Int) (r c m : Option String) :
    build_html_message tz ⟨r, c, m, .vInt 0⟩ =
      build_html_message tz ⟨r, c, m, .vNone⟩ ∧
    messageDate tz ⟨r, c, m, .vInt 0⟩ = .ok "" ∧
    messageDate tz ⟨r, c, m, .vNone⟩ = .ok "" ∧
    (∀ s, messageDate tz ⟨r, c, m, .vStr s⟩ = .ok "") ∧
    format_timestamp 0 (.vInt 0) = .ok "1970-01-01, 00:00:00" := by
  refine ⟨rfl, rfl, rfl, ?_, rfl⟩
  intro s
  unfold messageDate
  split_ifs with ht
  · rfl
  · rfl

/-- C5: the assembled document contains exactly one fragment per message,
in input order: the fragment list has the input's length, its `i`-th entry
is the rendering of the `i`-th message, and the generated HTML body embeds
the joined fragments (in that order) between the fixed title header and
footer. -/
theorem C5_message_order (tz : Int) (form : ChatTitleMessagesForm)
    (frags : List String) (h : assembleMessages tz form.messages = .ok frags) :
    frags.length = form.messages.length ∧
    (∀ i (hi : i < frags.length) (hm : i < form.messages.length),
      Except.ok (frags.get ⟨i, hi⟩) = build_html_message tz (form.messages.get ⟨i, hm⟩)) ∧
    generateChatHtml tz form =
      .ok (bodyPre (escapedTitle form.title) ++
        ("<div>" ++ String.join frags ++ "</div>") ++ bodySuf) := by
  obtain ⟨hlen, hget⟩ := assembleMessages_ok h
  exact ⟨hlen, hget, generateChatHtml_of_ok h⟩

/-- C5, witness: a two-message form assembles to exactly two fragments in
input order. -/
theorem C5_message_order_witness :
    ([htmlTemplate "User" "" "" "hi", htmlTemplate "Assistant" "m1" "" "yo"] : List String).length =
      ([(⟨some "user", some "hi", none, .vNone⟩ : Message),
        ⟨some "assistant", some "yo", some "m1", .vNone⟩] : List Message).length :=
  (C5_message_order 0
    ⟨"T", [⟨some "user", some "hi", none, .vNone⟩,
           ⟨some "assistant", some "yo", some "m1", .vNone⟩]⟩
    [htmlTemplate "User" "" "" "hi", htmlTemplate "Assistant" "m1" "" "yo"]
    rfl).1

/-- C6: a `"user"` message renders with empty model text whatever its model
field holds, and an `"assistant"` message renders its model verbatim after
HTML escaping — shown both at the model slot and in the full fragment. -/
theorem C6_model_suppression (tz : Int) (msg : Message) (m d : String) :
    (msg.role = some "user" → messageModel msg = .ok "") ∧
    (msg.role = some "user" → messageDate tz msg = .ok d →
      build_html_message tz msg =
        .ok (htmlTemplate "User" "" d (replaceNewlineBr (messageContentPre msg)))) ∧
    (msg.role = some "assistant" → msg.model = some m →
      messageModel msg = .ok (pyEscape m)) ∧
    (msg.role = some "assistant" → msg.model = some m → messageDate tz msg = .ok d →
      build_html_message tz msg =
        .ok (htmlTemplate "Assistant" (pyEscape m) d
          (replaceNewlineBr (messageContentPre msg)))) := by
  refine ⟨fun h => messageModel_user h, fun h hd => ?_, fun h hm => messageModel_assistant h hm,
    fun h hm hd => ?_⟩
  · rw [build_html_message_of_ok (messageModel_user h) hd, messageRole_user h]
    rfl
  · rw [build_html_message_of_ok (messageModel_assistant h hm) hd, messageRole_assistant h]
    rfl

/-- C6, witness: the theorem applied to a concrete user message carrying a
model name, and to a concrete assistant message. -/
theorem C6_model_suppression_witness :
    messageModel ⟨some "user", some "hi", some "sneaky-model", .vNone⟩ = .ok "" ∧
    messageModel ⟨some "assistant", some "hi", some "test-model", .vNone⟩ =
      .ok (pyEscape "test-model") :=
  ⟨(C6_model_suppression 0 ⟨some "user", some "hi", some "sneaky-model", .vNone⟩ "" "").1 rfl,
   (C6_model_suppression 0 ⟨some "assistant", some "hi", some "test-model", .vNone⟩
      "test-model" "").2.2.1 rfl rfl⟩

/-- C8: in `fix_rtl`, each wrapped line is letter-shaped (reshaped) exactly
when it contains basic-Arabic-block characters (U+0600–U+06FF, the code's
reshaping gate), the reshaping feeds into the bidi pass (so it happens
before reordering), and a line of only Hebrew, Syriac, Thaana or Samaritan
characters is bidi-reordered without reshaping. -/
theorem C8_reshape_only_arabic (text line : String) :
    fix_rtl text 75 = String.mk (joinNl ((pyWrap 75 text).map processLine)) ∧
    (line.data.any isArabicBasic = true →
      processLine line = get_display (reshape line)) ∧
    (line.data.any isArabicBasic = false →
      processLine line = get_display line) ∧
    ((∀ c ∈ line.data, isHebrewBlock c = true ∨ isSyriacBlock c = true ∨
        isThaanaBlock c = true ∨ isSamaritanBlock c = true) →
      processLine line = get_display line) := by
  refine ⟨rfl, fun h => by simp [processLine, h], fun h => by simp [processLine, h], fun h => ?_⟩
  have hno : line.data.any isArabicBasic = false := by
    rw [List.any_eq_false]
    intro c hc
    rcases h c hc with hb | hb | hb | hb <;>
      (simp only [isHebrewBlock, isSyriacBlock, isThaanaBlock, isSamaritanBlock,
        Bool.and_eq_true, decide_eq_true_eq] at hb
       simp only [isArabicBasic, Bool.and_eq_true, decide_eq_true_eq]
       omega)
  simp [processLine, hno]

/-- C8, witness: the theorem applied to an Arabic line (reshaped) and a
Hebrew-only line (not reshaped). -/
theorem C8_reshape_only_arabic_witness :
    processLine "با" = get_display (reshape "با") ∧
    processLine "אב" = get_display "אב" :=
  ⟨(C8_reshape_only_arabic "" "با").2.1 (by decide),
   (C8_reshape_only_arabic "" "אב").2.2.2 (by decide)⟩

/-- C9, counterexample to the claim as stated: `generate_chat_pdf` executes
`global FONTS_DIR` and rebinds the module-level `FONTS_DIR` when the
configured directory does not exist — after such a call the shared
configuration value has changed (here, to the fixed relative fallback). -/
theorem C9_fonts_dir_rebound :
    resolveFontsDir [] "/usr/lib/python3/site-packages" "/app/backend/data/fonts" =
      "./backend/static/fonts" ∧
    ("./backend/static/fonts" : String) ≠ "/app/backend/data/fonts" := by
  refine ⟨by decide, by decide⟩

/-- C9, amended: the font-directory resolution leaves the module-global
`FONTS_DIR` unchanged exactly when the configured directory exists; when
it does not, the global is rebound (to the site-packages path or the fixed
relative fallback), observably across calls, as the counterexample shows. -/
theorem C9_fonts_dir_stable_when_exists
    (existingDirs : List String) (sitePackages fontsDir : String)
    (h : fontsDir ∈ existingDirs) :
    resolveFontsDir existingDirs sitePackages fontsDir = fontsDir := by
  unfold resolveFontsDir
  rw [if_pos h]
  rw [if_pos h]

/-- C9, witness: the amended theorem at a concrete existing directory. -/
theorem C9_fonts_dir_stable_witness :
    resolveFontsDir ["/app/backend/static/fonts"] "/sp" "/app/backend/static/fonts" =
      "/app/backend/static/fonts" :=
  C9_fonts_dir_stable_when_exists ["/app/backend/static/fonts"] "/sp"
    "/app/backend/static/fonts" (by decide)

/-- C10: an assistant message without a model value makes the renderer
apply `escape` to `None`, raising `AttributeError` instead of rendering an
empty model name; through the fragment list comprehension this aborts the
whole document generation with an exception. -/
theorem C10_missing_model_raises (tz : Int) (msg : Message) (msgs : List Message) :
    (msg.role = some "assistant" → msg.model = none →
      build_html_message tz msg = .error .attributeError) ∧
    ((∃ m ∈ msgs, m.role = some "assistant" ∧ m.model = none) →
      ∃ e, assembleMessages tz msgs = .error e) := by
  constructor
  · intro h hm
    exact build_html_message_err_model (messageModel_missing h hm)
  · intro ⟨m, hmem, hrole, hmodel⟩
    exact assembleMessages_err
      ⟨m, hmem, .attributeError,
        build_html_message_err_model (messageModel_missing hrole hmodel)⟩

/-- C10, witness: a concrete assistant message with no model key crashes
its rendering and the assembly of any list containing it. -/
theorem C10_missing_model_witness :
    build_html_message 0 ⟨some "assistant", some "hi", none, .vNone⟩ =
      .error .attributeError ∧
    ∃ e, assembleMessages 0 [⟨some "user", some "a", none, .vNone⟩,
      ⟨some "assistant", some "hi", none, .vNone⟩] = .error e :=
  ⟨(C10_missing_model_raises 0 ⟨some "assistant", some "hi", none, .vNone⟩ []).1 rfl rfl,
   (C10_missing_model_raises 0 ⟨some "assistant", some "hi", none, .vNone⟩
      [⟨some "user", some "a", none, .vNone⟩,
       ⟨some "assistant", some "hi", none, .vNone⟩]).2
     ⟨⟨some "assistant", some "hi", none, .vNone⟩, by decide, rfl, rfl⟩⟩

end PdfGen
